import Mathlib

/-!
# Shallow embedding of the CMM requirement-matrix engine

This file embeds, in Lean 4, the parts of the CMM code base that the
verification claims are about:

* the shared requirement-text normalization and the comparison aggregator
  (`packages/core/src/lib/comparison.ts`),
* hierarchical requirement numbering (`packages/core/src/lib/requirementNumber.ts`),
* the SQLite-backed row ledger: bulk delete by requirement and restore
  (`ExpoSQLiteDatabase.deleteRowsByRequirement` / `restoreRows`),
* Excel ingestion (`validateScore`, `parseWorksheet`, `parseExcelFile`),
* Excel export (`exportMatrixToExcel`).

JavaScript-level semantics (string trimming, `parseInt`, `Number`,
`Math.round`, `Map` insertion order, stable `Array.prototype.sort`) are made
explicit; SQLite's `TRIM`/`LOWER` are modelled with their documented
semantics (space-only trim, ASCII-only case fold).
-/

namespace CMM

/-- ECMAScript whitespace as used by `String.prototype.trim` and `parseInt`:
tab, LF, VT, FF, CR, space, NBSP, the Unicode `Zs` separators, line/paragraph
separators and ZWNBSP. -/
def isJsWhitespace (c : Char) : Bool :=
  let n := c.toNat
  (0x9 ≤ n && n ≤ 0xD) || n == 0x20 || n == 0xA0 || n == 0x1680 ||
  (0x2000 ≤ n && n ≤ 0x200A) || n == 0x2028 || n == 0x2029 ||
  n == 0x202F || n == 0x205F || n == 0x3000 || n == 0xFEFF

/-- Drop elements satisfying `p` from both ends of a list. -/
def trimEndsBy (p : Char → Bool) (l : List Char) : List Char :=
  ((l.dropWhile p).reverse.dropWhile p).reverse

/-- JavaScript `String.prototype.trim`. -/
def jsTrim (s : String) : String :=
  ⟨trimEndsBy isJsWhitespace s.data⟩

/-- JavaScript `String.prototype.toLowerCase`, modelled on the ASCII range
(`A`–`Z` fold to `a`–`z`).  The development only evaluates it on ASCII
strings, where this is exact. -/
def jsCharLower (c : Char) : Char :=
  if 'A' ≤ c ∧ c ≤ 'Z' then Char.ofNat (c.toNat + 32) else c

/-- JavaScript `s.toLowerCase()` character by character (ASCII fold). -/
def jsToLower (s : String) : String :=
  ⟨s.data.map jsCharLower⟩

/-- `normalizeRequirement` from `comparison.ts`:
`text.trim().toLowerCase()`. -/
def normalizeRequirement (text : String) : String :=
  jsToLower (jsTrim text)

/-- SQLite's one-argument `TRIM(X)`: removes only space characters (U+0020)
from both ends. -/
def sqliteTrim (s : String) : String :=
  ⟨trimEndsBy (fun c => c == ' ') s.data⟩

/-- SQLite's `LOWER(X)`: folds only the ASCII letters `A`–`Z`. -/
def sqliteLower (s : String) : String :=
  ⟨s.data.map jsCharLower⟩

/-- The ledger's SQL-side normalization `LOWER(TRIM(requirements))` used by
`deleteRowsByRequirement`. -/
def sqlNormalize (s : String) : String :=
  sqliteLower (sqliteTrim s)

/-- ASCII decimal digit test (`0`–`9`). -/
def isDigitChar (c : Char) : Bool :=
  48 ≤ c.toNat && c.toNat ≤ 57

/-- Numeric value of a list of decimal digit characters. -/
def digitsToNat (l : List Char) : Nat :=
  l.foldl (fun acc c => acc * 10 + (c.toNat - 48)) 0

/-- JavaScript `parseInt(s, 10)`: skip leading whitespace, optional sign,
then the longest prefix of decimal digits; `none` models `NaN` (no digits). -/
def jsParseInt (s : String) : Option Int :=
  let l := s.data.dropWhile isJsWhitespace
  let sign : Int := if l.headD ' ' == '-' then -1 else 1
  let l' := if l.headD ' ' == '-' || l.headD ' ' == '+' then l.tail else l
  let digits := l'.takeWhile isDigitChar
  if digits.isEmpty then none else some (sign * (digitsToNat digits : Int))

/-- JavaScript `Number(s)` restricted to the segment strings produced by
splitting requirement numbers: `""` is `0`, a non-empty all-digit string is
its value, anything else is `NaN` (`none`).  (General `Number` coercion also
accepts signs, decimals and exponents, which cannot occur in a segment of a
valid requirement number.) -/
def jsNumber (s : String) : Option Int :=
  if s.data.isEmpty then some 0
  else if s.data.all isDigitChar then some (digitsToNat s.data : Int)
  else none

/-- Substring test on character lists (JS `String.prototype.includes`). -/
def listHasPrefixChars (p : List Char) : List Char → Bool :=
  fun l =>
    match p, l with
    | [], _ => true
    | _ :: _, [] => false
    | a :: p', b :: l' => a == b && listHasPrefixChars p' l'

/-- Scan all suffixes for the pattern. -/
def substrAux (p : List Char) : List Char → Bool
  | [] => listHasPrefixChars p []
  | c :: l => listHasPrefixChars p (c :: l) || substrAux p l

/-- JS `s.includes(pat)`. -/
def substrOf (pat s : String) : Bool := substrAux pat.data s.data

/-- JS `String.prototype.split` with a single-character separator, on
character lists: `"".split(c)` is `[""]`, and separators at the ends produce
empty segments. -/
def splitOnChar (sep : Char) : List Char → List (List Char)
  | [] => [[]]
  | c :: rest =>
      let r := splitOnChar sep rest
      if c == sep then [] :: r
      else
        match r with
        | [] => [[c]]
        | h :: t => (c :: h) :: t

/-- JS `s.split('.')`. -/
def jsSplitDot (s : String) : List String :=
  (splitOnChar '.' s.data).map (fun l => ⟨l⟩)

/-- JS `Array.prototype.join` with a single-character separator, on
character lists. -/
def joinSepChars (sep : Char) : List (List Char) → List Char
  | [] => []
  | [p] => p
  | p :: rest => p ++ sep :: joinSepChars sep rest

/-- JS `parts.join('.')`. -/
def jsJoinDot (parts : List String) : String :=
  ⟨joinSepChars '.' (parts.map (·.data))⟩

/-- JS `s.endsWith(suffix)`. -/
def strEndsWith (suffix s : String) : Bool :=
  listHasPrefixChars suffix.data.reverse s.data.reverse

/-- JS `s.slice(0, s.length - n)` (used to strip a file extension). -/
def dropRightStr (s : String) (n : Nat) : String :=
  ⟨s.data.take (s.data.length - n)⟩

/-! ## Hierarchical requirement numbering (`requirementNumber.ts`) -/

/-- `isValidRequirementNumber`: empty, or `^\d+(\.\d+)*$` — i.e. every
dot-separated segment is a non-empty digit string. -/
def isValidRequirementNumber (value : String) : Bool :=
  if value = "" then true
  else (jsSplitDot value).all (fun seg => !(seg == "") && seg.data.all isDigitChar)

/-- `getDepth`: number of `'.'` characters; empty string has depth 0. -/
def getDepth (reqNum : String) : Nat :=
  (reqNum.data.filter (fun c => c == '.')).length

/-- JavaScript `!==` on numbers where `none` models `NaN`
(`NaN !== x` is always true). -/
def jsNe : Option Int → Option Int → Bool
  | some x, some y => x != y
  | _, _ => true

/-- JavaScript subtraction where `none` models `NaN`. -/
def jsSub : Option Int → Option Int → Option Int
  | some x, some y => some (x - y)
  | _, _ => none

/-- Remaining right-hand segments compared against an exhausted (0-padded)
left side. -/
def cmpSegRight : List (Option Int) → Option Int
  | [] => some 0
  | b :: bs => if jsNe (some 0) b then jsSub (some 0) b else cmpSegRight bs

/-- Remaining left-hand segments compared against an exhausted (0-padded)
right side. -/
def cmpSegLeft : List (Option Int) → Option Int
  | [] => some 0
  | a :: as' => if jsNe a (some 0) then jsSub a (some 0) else cmpSegLeft as'

/-- The index loop of `compareRequirementNumbers`: walk both segment lists in
step, treating a missing entry as `0` (`?? 0`), and return `aVal - bVal` at
the first index where `aVal !== bVal`. -/
def cmpSegLoop : List (Option Int) → List (Option Int) → Option Int
  | [], bs => cmpSegRight bs
  | a :: as', [] => if jsNe a (some 0) then jsSub a (some 0) else cmpSegLeft as'
  | a :: as', b :: bs' => if jsNe a b then jsSub a b else cmpSegLoop as' bs'

/-- `compareRequirementNumbers`: empty strings sort to the end, otherwise
split on `'.'`, coerce segments with `Number`, and compare index-wise with
missing segments read as 0.  The result is an `Option Int` where `none`
models a `NaN` return (possible only for invalid inputs). -/
def compareRequirementNumbers (a b : String) : Option Int :=
  if a = "" && b = "" then some 0
  else if a = "" then some 1
  else if b = "" then some (-1)
  else cmpSegLoop ((jsSplitDot a).map jsNumber) ((jsSplitDot b).map jsNumber)

/-- Little-endian decimal digits of `n`, with explicit fuel so that the
definition is structurally recursive (hence kernel-evaluable). -/
def natDigitsRev (fuel : Nat) (n : Nat) : List Nat :=
  match fuel with
  | 0 => []
  | fuel + 1 => if n = 0 then [] else (n % 10) :: natDigitsRev fuel (n / 10)

/-- Decimal rendering of a natural number (JS `String(n)` for `n ≥ 0`). -/
def natToString (n : Nat) : String :=
  if n = 0 then "0"
  else ⟨((natDigitsRev n n).reverse.map (fun d => Char.ofNat (48 + d)))⟩

/-- `String(n)` for the integers this code produces (`String(parseInt(..)+1)`
and auto-numbering): decimal rendering with a sign for negatives. -/
def jsIntToString (n : Int) : String :=
  if n < 0 then "-" ++ natToString n.natAbs else natToString n.natAbs

/-- Value of a little-endian digit-value list. -/
def ofDigitsLE : List Nat → Nat
  | [] => 0
  | d :: ds => d + 10 * ofDigitsLE ds

/-- `outdentNumber`: `""` returns `"1"`; a single segment is returned
unchanged; otherwise drop the last segment and increment the new last one
(`parseInt` of a non-numeric segment is `NaN`, rendered `"NaN"`). -/
def outdentNumber (current : String) : String :=
  if current = "" then "1"
  else
    let parts := jsSplitDot current
    if parts.length ≤ 1 then current
    else
      let parts' := parts.dropLast
      let incremented :=
        match jsParseInt (parts'.getLastD "") with
        | some n => jsIntToString (n + 1)
        | none => "NaN"
      jsJoinDot (parts'.dropLast ++ [incremented])

/-- `parseSegments`: `[]` for empty/invalid numbers, else the `Number` value
of each dot-separated segment. -/
def parseSegments (reqNum : String) : List (Option Int) :=
  if reqNum = "" || !isValidRequirementNumber reqNum then []
  else (jsSplitDot reqNum).map jsNumber

/-! ## Scores -/

/-- The `Score` type: a number or `null` ("unrated").  The code only ever
stores `0..3`, which the normalizers enforce. -/
abbrev Score := Option Int

/-- A dynamically-typed spreadsheet cell value (`unknown` at the ingestion
boundary): JS `null`, `undefined`, a string, a number (modelled as an exact
rational), or any other runtime type (boolean, date, error object), carried
with its JS `toString()` rendering. -/
inductive CellValue where
  | vNull
  | vUndef
  | vStr (s : String)
  | vNum (q : ℚ)
  | vOther (disp : String)
deriving DecidableEq, Repr

/-- JavaScript `Math.round`: round half toward positive infinity,
`⌊x + 1/2⌋`, modelled on exact rationals.  Written as an integer floor
division so that it evaluates by kernel reduction; `jsRound_eq_floor` below
states the intended form. -/
def jsRound (q : ℚ) : Int := (2 * q.num + q.den) / (2 * (q.den : Int))

/-- `validateScore` from the Excel importer: `null`/`undefined`/`""` are
unrated; strings are trimmed then `parseInt`-parsed and accepted only in
`[0,3]`; numbers are `Math.round`-ed and accepted only in `[0,3]`;
every other runtime type is unrated. -/
def validateScore (value : CellValue) : Score :=
  if value = .vNull ∨ value = .vUndef ∨ value = .vStr "" then none
  else
    match value with
    | .vStr s =>
        let trimmed := jsTrim s
        if trimmed = "" then none
        else
          match jsParseInt trimmed with
          | some n => if 0 ≤ n ∧ n ≤ 3 then some n else none
          | none => none
    | .vNum q =>
        let rounded := jsRound q
        if 0 ≤ rounded ∧ rounded ≤ 3 then some rounded else none
    | _ => none

/-- `parseScore` from the SQLite ledger: the `experience_and_capability`
column holds a string or `NULL`; a string is `parseInt`-parsed and accepted
only in `[0,3]` (a `NaN` parse fails both comparisons). -/
def parseScore (value : Option String) : Score :=
  match value with
  | none => none
  | some s =>
      match jsParseInt s with
      | some n => if 0 ≤ n ∧ n ≤ 3 then some n else none
      | none => none

/-! ## Stable sorting

JavaScript's `Array.prototype.sort` is stable (ES2019) and SQLite's
`ORDER BY` returns equal keys in table (rowid) order; both are modelled by a
stable insertion sort parameterized by a boolean "does not come after"
relation `le`, where `le a b` is true exactly when the JS comparator
`cmp(a,b)` is not positive (a `NaN` comparator value leaves order
unchanged, i.e. counts as not positive). -/

/-- Insert `a` in front of the first element `b` with `le a b`. -/
def insertBy (le : α → α → Bool) (a : α) : List α → List α
  | [] => [a]
  | b :: l => if le a b then a :: b :: l else b :: insertBy le a l

/-- Stable insertion sort: earlier elements are inserted in front of
later elements that compare equal. -/
def sortBy (le : α → α → Bool) : List α → List α
  | [] => []
  | a :: l => insertBy le a (sortBy le l)

/-! ## The SQLite ledger (`ExpoSQLiteDatabase`)

The persistent state is the `matrices` and `matrix_rows` tables.  The row
table is kept as a list in rowid (insertion) order; `ORDER BY row_order ASC`
is modelled as a stable sort over that order, which is SQLite's actual
behaviour for ties (document order by rowid). -/

/-- A row of the `matrix_rows` table (`MatrixRowDbRow`). -/
structure DbRow where
  id : String
  matrix_id : String
  requirement_number : String
  requirements : String
  experience_and_capability : Option String
  past_performance : String
  comments : String
  row_order : Int
deriving DecidableEq, Repr

/-- The in-memory row shape `CapabilityMatrixRow`. -/
structure CapabilityMatrixRow where
  id : String
  matrixId : String
  requirementNumber : String
  requirements : String
  experienceAndCapability : Score
  pastPerformance : String
  comments : String
  rowOrder : Int
deriving DecidableEq, Repr

/-- `mapMatrixRowRow`: database row → `CapabilityMatrixRow`. -/
def mapMatrixRowRow (row : DbRow) : CapabilityMatrixRow :=
  { id := row.id
    matrixId := row.matrix_id
    requirementNumber := row.requirement_number
    requirements := row.requirements
    experienceAndCapability := parseScore row.experience_and_capability
    pastPerformance := row.past_performance
    comments := row.comments
    rowOrder := row.row_order }

/-- A row of the `matrices` table (the fields the claims observe). -/
structure MatrixRec where
  id : String
  name : String
  updated_at : String
deriving DecidableEq, Repr

/-- The persisted store: both tables, rows in rowid (insertion) order. -/
structure Store where
  matrices : List MatrixRec
  rows : List DbRow
deriving DecidableEq, Repr

/-- Result record of `deleteRowsByRequirement`. -/
structure DeleteResult where
  deletedCount : Nat
  affectedMatrixIds : List String
  deletedRows : List CapabilityMatrixRow
deriving DecidableEq, Repr

/-- Insertion-ordered deduplication, as `[...new Set(xs)]`. -/
def dedupKeepFirst (l : List String) : List String :=
  l.foldl (fun acc x => if x ∈ acc then acc else acc ++ [x]) []

/-- `UPDATE matrices SET updated_at = now WHERE id = matrixId`, run for each
affected id. -/
def bumpMatrices (now : String) (affected : List String) (ms : List MatrixRec) :
    List MatrixRec :=
  ms.map (fun m => if m.id ∈ affected then { m with updated_at := now } else m)

/-- `deleteRowsByRequirement`: normalize the target in JS
(`requirement.trim().toLowerCase()`), select and delete all rows with
`LOWER(TRIM(requirements)) = ?`, capture the deleted rows for undo, and bump
every affected matrix's `updated_at`. -/
def deleteRowsByRequirement (now requirement : String) (st : Store) :
    Store × DeleteResult :=
  let normalizedReq := normalizeRequirement requirement
  let matched := st.rows.filter (fun r => sqlNormalize r.requirements == normalizedReq)
  if matched.isEmpty then (st, ⟨0, [], []⟩)
  else
    let deletedRows := matched.map mapMatrixRowRow
    let remaining := st.rows.filter (fun r => !(sqlNormalize r.requirements == normalizedReq))
    let affectedMatrixIds := dedupKeepFirst (matched.map (·.matrix_id))
    ({ matrices := bumpMatrices now affectedMatrixIds st.matrices, rows := remaining },
     ⟨matched.length, affectedMatrixIds, deletedRows⟩)

/-- The `INSERT` performed by `restoreRows` (scores rendered back with
`toString`, `null` preserved). -/
def dbRowOfCapRow (r : CapabilityMatrixRow) : DbRow :=
  { id := r.id
    matrix_id := r.matrixId
    requirement_number := r.requirementNumber
    requirements := r.requirements
    experience_and_capability := r.experienceAndCapability.map jsIntToString
    past_performance := r.pastPerformance
    comments := r.comments
    row_order := r.rowOrder }

/-- The set of matrix ids whose timestamp `restoreRows` bumps (the JS
`Set<string>` filled in insertion order). -/
def restoreAffectedIds (rows : List CapabilityMatrixRow) : List String :=
  dedupKeepFirst (rows.map (·.matrixId))

/-- `restoreRows`: re-insert each given row verbatim (new rowids, i.e.
appended to the table) and bump every touched matrix's `updated_at`. -/
def restoreRows (now : String) (rows : List CapabilityMatrixRow) (st : Store) : Store :=
  { matrices := bumpMatrices now (restoreAffectedIds rows) st.matrices
    rows := st.rows ++ rows.map dbRowOfCapRow }

/-- `ORDER BY row_order ASC` comparison on table rows. -/
def rowOrderLe (a b : DbRow) : Bool := a.row_order ≤ b.row_order

/-- The same comparison on mapped rows. -/
def capRowOrderLe (a b : CapabilityMatrixRow) : Bool := a.rowOrder ≤ b.rowOrder

/-- `getMatrixRows`: the observable per-matrix row list —
`SELECT * FROM matrix_rows WHERE matrix_id = ? ORDER BY row_order ASC`,
mapped through `mapMatrixRowRow`. -/
def rowsOf (st : Store) (matrixId : String) : List CapabilityMatrixRow :=
  (sortBy rowOrderLe (st.rows.filter (fun r => r.matrix_id == matrixId))).map mapMatrixRowRow

/-! ## Agreement of the JS and SQL normalizations -/

/-- Every matrix's rows carry pairwise-distinct display orders — the data
shape produced by the store's own row-creation paths, under which the
observable per-matrix order is uniquely determined. -/
def distinctRowOrders (st : Store) : Prop :=
  ∀ mid ∈ st.rows.map (fun r => r.matrix_id),
    ((st.rows.filter (fun r => r.matrix_id == mid)).map (fun r => r.row_order)).Nodup

instance (st : Store) : Decidable (distinctRowOrders st) := by
  unfold distinctRowOrders
  infer_instance

/-- A concrete two-row store exercising the ledger theorems. -/
def storeTwoRows : Store :=
  ⟨[⟨"m", "M", "t0"⟩],
   [⟨"r1", "m", "1", "Foo", some "2", "pp", "cm", 0⟩,
    ⟨"r2", "m", "2", "Bar", none, "", "", 1⟩]⟩

/-- A store whose two rows share a display order (a tie). -/
def storeTiedOrders : Store :=
  ⟨[⟨"m", "M", "t0"⟩],
   [⟨"r1", "m", "1", "foo", none, "", "", 0⟩,
    ⟨"r2", "m", "2", "bar", none, "", "", 0⟩]⟩

/-- A store holding one row whose requirement text begins with a tab. -/
def storeTabRow : Store :=
  ⟨[⟨"m", "M", "t0"⟩], [⟨"r1", "m", "1", "\tfoo", none, "", "", 0⟩]⟩

/-- A store with space-padded ASCII requirement text. -/
def storeSpacePadded : Store :=
  ⟨[⟨"m", "M", "t0"⟩],
   [⟨"r1", "m", "1", "  Foo ", some "1", "", "", 0⟩,
    ⟨"r2", "m", "2", "Bar", none, "", "", 1⟩]⟩

/-- Strings on which the JS normalization (`trim` + `toLowerCase`) and the
SQL normalization (`LOWER(TRIM(..))`) provably agree: ASCII characters only,
and no whitespace other than plain spaces. -/
def asciiSpaceOnly (s : String) : Prop :=
  ∀ c ∈ s.data, c.toNat < 128 ∧ (isJsWhitespace c = true → c = ' ')

instance (s : String) : Decidable (asciiSpaceOnly s) := by
  unfold asciiSpaceOnly
  infer_instance


/-! ## The comparison aggregator (`comparison.ts`) -/

/-- A matrix together with its rows (`CapabilityMatrixWithRows`), as consumed
by `buildComparisonData`. -/
structure MatrixWithRows where
  id : String
  name : String
  rows : List CapabilityMatrixRow
deriving DecidableEq, Repr

/-- `ComparisonCellData`: one company's response to a requirement. -/
structure ComparisonCellData where
  score : Score
  pastPerformance : String
  comments : String
  rowId : String
deriving DecidableEq, Repr

/-- `ComparisonRow`: display text, normalized key, and the per-matrix cell
map.  JS `Map`s are modelled as association lists in insertion order, with
`set` updating an existing key in place. -/
structure ComparisonRow where
  requirement : String
  normalizedRequirement : String
  cells : List (String × ComparisonCellData)
deriving DecidableEq, Repr

/-- `ComparisonData`: the rows plus the `(id, name)` list of all matrices. -/
structure ComparisonData where
  rows : List ComparisonRow
  matrices : List (String × String)
deriving DecidableEq, Repr

/-- JS `Map.prototype.set`: update in place if the key exists, else append. -/
def mapSet (k : String) (v : β) : List (String × β) → List (String × β)
  | [] => [(k, v)]
  | (k', v') :: rest => if k' = k then (k, v) :: rest else (k', v') :: mapSet k v rest

/-- JS `Map.prototype.get` (`none` models `undefined`). -/
def mapGet (k : String) : List (String × β) → Option β
  | [] => none
  | (k', v') :: rest => if k' = k then some v' else mapGet k rest

/-- The cell data recorded for a row (`cells.set(matrix.id, {...})`). -/
def cellDataOf (row : CapabilityMatrixRow) : ComparisonCellData :=
  { score := row.experienceAndCapability
    pastPerformance := row.pastPerformance
    comments := row.comments
    rowId := row.id }

/-- Update the `cells` map of the entry with key `nr` (the in-place
mutation `compRow.cells.set(matrix.id, ...)`). -/
def updateCells (nr mid : String) (cd : ComparisonCellData)
    (m : List (String × ComparisonRow)) : List (String × ComparisonRow) :=
  m.map (fun e => if e.1 = nr then (e.1, { e.2 with cells := mapSet mid cd e.2.cells }) else e)

/-- The loop state of `buildComparisonData`: the requirement map, the
first-seen order map, and the order counter. -/
structure BuildState where
  reqMap : List (String × ComparisonRow)
  orderMap : List (String × Int)
  order : Int
deriving DecidableEq, Repr

/-- The body of the inner row loop of `buildComparisonData`. -/
def rowStep (matrixId : String) (row : CapabilityMatrixRow) (st : BuildState) :
    BuildState :=
  let nr := normalizeRequirement row.requirements
  if nr = "" then st
  else
    let st₁ :=
      if (mapGet nr st.reqMap).isNone then
        { reqMap := mapSet nr ⟨jsTrim row.requirements, nr, []⟩ st.reqMap
          orderMap := mapSet nr st.order st.orderMap
          order := st.order + 1 }
      else st
    { st₁ with reqMap := updateCells nr matrixId (cellDataOf row) st₁.reqMap }

/-- The nested matrix/row loops of `buildComparisonData`. -/
def buildState (ms : List MatrixWithRows) : BuildState :=
  ms.foldl (fun st m => m.rows.foldl (fun st row => rowStep m.id row st) st) ⟨[], [], 0⟩

/-- The final sort comparator
`(orderMap.get(a) ?? 0) - (orderMap.get(b) ?? 0)`, as the stable-sort
"not after" relation. -/
def orderLe (om : List (String × Int)) (a b : ComparisonRow) : Bool :=
  ((mapGet a.normalizedRequirement om).getD 0) ≤ ((mapGet b.normalizedRequirement om).getD 0)

/-- `buildComparisonData`: run the loops, sort the map values by first-seen
order, and list every matrix as `(id, name)`. -/
def buildComparisonData (ms : List MatrixWithRows) : ComparisonData :=
  let st := buildState ms
  { rows := sortBy (orderLe st.orderMap) (st.reqMap.map Prod.snd)
    matrices := ms.map (fun m => (m.id, m.name)) }

/-- The flattened scan of `buildComparisonData`: `(matrix id, row)` pairs,
matrices in caller order, rows in stored order. -/
def scanRows (ms : List MatrixWithRows) : List (String × CapabilityMatrixRow) :=
  ms.flatMap (fun m => m.rows.map (fun r => (m.id, r)))

/-- One loop step at the flattened level. -/
def stepPair (st : BuildState) (p : String × CapabilityMatrixRow) : BuildState :=
  rowStep p.1 p.2 st

/-- The non-empty normalized keys occurring in a scan, in scan order. -/
def keysOfPairs (P : List (String × CapabilityMatrixRow)) : List String :=
  (P.map (fun p => normalizeRequirement p.2.requirements)).filter (fun k => !(k == ""))

/-- The trimmed text of the first scanned row whose key is `key`. -/
def firstReqTrimmed (P : List (String × CapabilityMatrixRow)) (key : String) :
    Option String :=
  (P.find? (fun p => normalizeRequirement p.2.requirements == key)).map
    (fun p => jsTrim p.2.requirements)

/-- The cell data of the last scanned row of matrix `mid` whose key is
`key`. -/
def lastCellForKey (P : List (String × CapabilityMatrixRow)) (mid key : String) :
    Option ComparisonCellData :=
  ((P.filter (fun p => p.1 == mid && (normalizeRequirement p.2.requirements == key))).getLast?).map
    (fun p => cellDataOf p.2)

/-! ## The Excel importer (`importer.ts`)

A worksheet is a sparse grid of cells with a decoded `!ref` range; the
`xlsx` utility calls (`decode_range`, `encode_cell`, dictionary access) are
reflected by `Grid`/`cellAt`. -/

/-- JS `Number.prototype.toString` for cell values the importer may render:
exact for integers; a non-integral rational is rendered `num/den` (real JS
uses decimal notation, but the importer only ever inspects this string for
emptiness and substrings of header keywords, and both renderings are
non-empty and keyword-free). -/
def numToString (q : ℚ) : String :=
  if q.den = 1 then toString q.num else toString q.num ++ "/" ++ toString q.den

/-- JS `toString()` of a cell value (only reached for non-null,
non-undefined values). -/
def cellValueToString : CellValue → String
  | .vNull => ""
  | .vUndef => ""
  | .vStr s => s
  | .vNum q => numToString q
  | .vOther disp => disp

/-- An `XLSX.CellObject`: raw value `v` plus optional formatted text `w`. -/
structure Cell where
  v : CellValue
  w : Option String
deriving DecidableEq, Repr

/-- A worksheet: decoded `!ref` range bounds and the sparse cell
dictionary. -/
structure Grid where
  startCol : Nat
  endCol : Nat
  endRow : Nat
  cells : List ((Nat × Nat) × Cell)
deriving DecidableEq, Repr

/-- `sheet[XLSX.utils.encode_cell({r, c})]`. -/
def cellAt (g : Grid) (r c : Nat) : Option Cell :=
  (g.cells.find? (fun e => e.1 == (r, c))).map (·.2)

/-- `getCellString`: empty for a missing cell or null/undefined value, else
the trimmed formatted text if present, else the trimmed `toString` of the
raw value. -/
def getCellString (cell : Option Cell) : String :=
  match cell with
  | none => ""
  | some cell =>
      if cell.v = .vNull ∨ cell.v = .vUndef then ""
      else
        match cell.w with
        | some w => jsTrim w
        | none => jsTrim (cellValueToString cell.v)

/-- `HeaderInfo`: detected header row and column layout
(`reqNumberCol = -1` when absent). -/
structure HeaderInfo where
  row : Nat
  hasReqNumberColumn : Bool
  reqNumberCol : Int
  requirementsCol : Nat
  scoreCol : Nat
  pastPerfCol : Nat
  commentsCol : Nat
deriving DecidableEq, Repr

/-- The column indices `range.s.c .. range.e.c`. -/
def colRange (g : Grid) : List Nat :=
  List.range' g.startCol (g.endCol + 1 - g.startCol)

/-- One row of the header scan: fold over the columns, remembering the last
column whose lowered text looks like a "Req #" header and the last column
that mentions "requirement" without a "#". -/
def scanHeaderRow (g : Grid) (row : Nat) : Int × Int :=
  (colRange g).foldl
    (fun (acc : Int × Int) col =>
      let value := jsToLower (getCellString (cellAt g row col))
      if substrOf "req #" value || substrOf "req#" value ||
          value == "requirement number" || value == "req number" then
        (Int.ofNat col, acc.2)
      else if substrOf "requirement" value && !(substrOf "#" value) then
        (acc.1, Int.ofNat col)
      else acc)
    (-1, -1)

/-- The row loop of `findHeaderInfo`: the first row (among the first 30)
with a requirements column wins. -/
def findHeaderRowLoop (g : Grid) : List Nat → Option HeaderInfo
  | [] => none
  | row :: rest =>
      let found := scanHeaderRow g row
      if found.2 ≥ 0 then
        some (if found.1 ≥ 0 then
          { row := row, hasReqNumberColumn := true, reqNumberCol := found.1
            requirementsCol := found.2.toNat, scoreCol := found.2.toNat + 1
            pastPerfCol := found.2.toNat + 2, commentsCol := found.2.toNat + 3 }
        else
          { row := row, hasReqNumberColumn := false, reqNumberCol := -1
            requirementsCol := found.2.toNat, scoreCol := found.2.toNat + 1
            pastPerfCol := found.2.toNat + 2, commentsCol := found.2.toNat + 3 })
      else findHeaderRowLoop g rest

/-- `findHeaderInfo`: search the first 30 rows; defaults to row 0 with the
old `A..D` layout. -/
def findHeaderInfo (g : Grid) : HeaderInfo :=
  match findHeaderRowLoop g (List.range (min g.endRow 29 + 1)) with
  | some hi => hi
  | none =>
      { row := 0, hasReqNumberColumn := false, reqNumberCol := -1
        requirementsCol := 0, scoreCol := 1, pastPerfCol := 2, commentsCol := 3 }

/-- A hit of the company-name scan at position `rc`: the label matches and
the next column holds a non-empty string. -/
def companyNameAt (g : Grid) (rc : Nat × Nat) : Option String :=
  let value := jsToLower (getCellString (cellAt g rc.1 rc.2))
  if substrOf "company name" value || value == "company" then
    let companyName := getCellString (cellAt g rc.1 (rc.2 + 1))
    if companyName ≠ "" then some companyName else none
  else none

/-- The scan order of `extractCompanyName`: rows 0..min(e.r,19), columns
s.c..min(e.c,3). -/
def companyScanOrder (g : Grid) : List (Nat × Nat) :=
  (List.range (min g.endRow 19 + 1)).flatMap
    (fun row => (List.range' g.startCol (min g.endCol 3 + 1 - g.startCol)).map
      (fun col => (row, col)))

/-- `filename.replace(/\.(xlsx?|xls)$/i, '')`. -/
def stripExcelExt (filename : String) : String :=
  let lower := jsToLower filename
  if strEndsWith ".xlsx" lower then dropRightStr filename 5
  else if strEndsWith ".xls" lower then dropRightStr filename 4
  else filename

/-- `extractCompanyName`: first matching label with a non-empty neighbour,
else the file base name, suffixed with the sheet name when it is not the
default `Sheet1`. -/
def extractCompanyName (g : Grid) (filename : String) (sheetName : Option String) :
    String :=
  match (companyScanOrder g).findSome? (companyNameAt g) with
  | some companyName => companyName
  | none =>
      let baseName := stripExcelExt filename
      match sheetName with
      | some sn => if sn ≠ "Sheet1" then baseName ++ " - " ++ sn else baseName
      | none => baseName

/-- A parsed data row (`ParsedRow`). -/
structure ParsedRow where
  requirementNumber : String
  requirements : String
  experienceAndCapability : Score
  pastPerformance : String
  comments : String
deriving DecidableEq, Repr

/-- A parsed matrix (`ParsedMatrix`). -/
structure ParsedMatrix where
  name : String
  sourceFile : String
  sheetName : Option String
  rows : List ParsedRow
deriving DecidableEq, Repr

/-- The value handed to `validateScore` for a row (`scoreCell?.v`). -/
def scoreValueAt (g : Grid) (hi : HeaderInfo) (row : Nat) : CellValue :=
  match cellAt g row hi.scoreCol with
  | none => .vUndef
  | some c => c.v

/-- The data-row loop of `parseWorksheet`: keep rows with a non-empty
requirements cell; auto-number kept rows whose number cell is empty or
absent. -/
def extractRowsLoop (g : Grid) (hi : HeaderInfo) :
    List Nat → Nat → List ParsedRow
  | [], _ => []
  | row :: rest, autoNumber =>
      let requirements := getCellString (cellAt g row hi.requirementsCol)
      if requirements = "" then extractRowsLoop g hi rest autoNumber
      else
        let fromCell :=
          if hi.hasReqNumberColumn && hi.reqNumberCol ≥ 0 then
            getCellString (cellAt g row hi.reqNumberCol.toNat)
          else ""
        let numbered :=
          if fromCell = "" then (natToString autoNumber, autoNumber + 1)
          else (fromCell, autoNumber)
        { requirementNumber := numbered.1
          requirements := requirements
          experienceAndCapability := validateScore (scoreValueAt g hi row)
          pastPerformance := getCellString (cellAt g row hi.pastPerfCol)
          comments := getCellString (cellAt g row hi.commentsCol) } ::
          extractRowsLoop g hi rest numbered.2

/-- The data-row indices of a sheet: `headerInfo.row + 1 .. range.e.r`. -/
def dataRowIndices (g : Grid) (hi : HeaderInfo) : List Nat :=
  List.range' (hi.row + 1) (g.endRow - hi.row)

/-- `parseWorksheet`: detect the header, extract the company name and the
data rows; `none` when no valid row was found. -/
def parseWorksheet (g : Grid) (filename : String) (sheetName : Option String) :
    Option ParsedMatrix :=
  let hi := findHeaderInfo g
  let name := extractCompanyName g filename sheetName
  let rows := extractRowsLoop g hi (dataRowIndices g hi) 1
  if rows.isEmpty then none
  else some { name := name, sourceFile := filename, sheetName := sheetName, rows := rows }

/-- A sheet as handed to the per-sheet `try` block: either a grid, or a
sheet on which the external `xlsx` utilities throw (the thrown message). -/
inductive SheetData where
  | malformed (msg : String)
  | grid (g : Grid)
deriving DecidableEq, Repr

/-- A workbook as handed to the outer `try` block: either unreadable
(`XLSX.read` throws) or a list of named sheets. -/
inductive WorkbookInput where
  | unreadable (msg : String)
  | book (sheets : List (String × SheetData))
deriving DecidableEq, Repr

/-- `ParseResult`. -/
structure ParseResult where
  matrices : List ParsedMatrix
  errors : List String
deriving DecidableEq, Repr

/-- The per-sheet error string. -/
def sheetErrorString (filename sheetName msg : String) : String :=
  "Error parsing sheet \"" ++ sheetName ++ "\" in " ++ filename ++ ": " ++ msg

/-- One iteration of the sheet loop: a parsed sheet appends a matrix, an
empty sheet contributes nothing, a throwing sheet appends one error. -/
def sheetStep (filename : String) (multiSheet : Bool)
    (acc : List ParsedMatrix × List String) (s : String × SheetData) :
    List ParsedMatrix × List String :=
  match s.2 with
  | .grid g =>
      match parseWorksheet g filename (if multiSheet then some s.1 else none) with
      | some parsed => (acc.1 ++ [parsed], acc.2)
      | none => acc
  | .malformed msg => (acc.1, acc.2 ++ [sheetErrorString filename s.1 msg])

/-- `parseExcelFile`: read the workbook, parse each sheet with per-sheet
error capture, and synthesize a "No valid data found" error when both lists
would be empty. -/
def parseExcelFile (input : WorkbookInput) (filename : String) : ParseResult :=
  match input with
  | .unreadable msg => ⟨[], ["Failed to parse " ++ filename ++ ": " ++ msg]⟩
  | .book sheets =>
      let acc := sheets.foldl (sheetStep filename (sheets.length > 1)) ([], [])
      if acc.1.isEmpty && acc.2.isEmpty then
        ⟨acc.1, acc.2 ++ ["No valid data found in " ++ filename]⟩
      else ⟨acc.1, acc.2⟩

/-- The matrices of a workbook's sheets, in sheet order: one per grid sheet
that parses to a non-empty matrix; malformed sheets contribute nothing
here. -/
def parsedSheets (filename : String) (sheets : List (String × SheetData)) :
    List ParsedMatrix :=
  sheets.filterMap (fun s =>
    match s.2 with
    | .grid g => parseWorksheet g filename (if sheets.length > 1 then some s.1 else none)
    | .malformed _ => none)

/-- The per-sheet error strings of a workbook, in sheet order: exactly one
per malformed sheet. -/
def sheetErrs (filename : String) (sheets : List (String × SheetData)) : List String :=
  sheets.filterMap (fun s =>
    match s.2 with
    | .malformed msg => some (sheetErrorString filename s.1 msg)
    | .grid _ => none)

/-- The kept data-row indices of a sheet: the post-header rows whose
requirements cell is non-empty (the sole validity gate). -/
def keptRowIndices (g : Grid) (hi : HeaderInfo) : List Nat :=
  (dataRowIndices g hi).filter
    (fun row => !(getCellString (cellAt g row hi.requirementsCol) == ""))

/-- A concrete worksheet grid: header row 4, three data rows with
requirement text, one whitespace-only row. -/
def sampleGrid : Grid :=
  ⟨0, 3, 8,
   [((4, 0), ⟨.vStr "Requirements", none⟩),
    ((5, 0), ⟨.vStr "Alpha", none⟩), ((5, 1), ⟨.vNum 3, none⟩),
    ((6, 0), ⟨.vStr "   ", none⟩),
    ((7, 0), ⟨.vStr "Beta", none⟩), ((7, 3), ⟨.vStr "note", none⟩),
    ((8, 0), ⟨.vStr "Gamma", none⟩)]⟩

/-- A concrete workbook: one malformed sheet followed by one good sheet. -/
def sampleSheets : List (String × SheetData) :=
  [("S1", .malformed "boom"), ("S2", .grid sampleGrid)]


/-! ## The Excel exporter (`exporter.ts`)

The model records the `value` writes into the worksheet (cell address →
value, later writes winning) and the attached conditional-formatting
ranges; purely visual styling (fills, fonts, borders, widths, alignment) is
outside the claims and not modelled. -/

/-- A written cell value: string or number. -/
inductive XCell where
  | xs (v : String)
  | xn (v : Int)
deriving DecidableEq, Repr

/-- A conditional-formatting block: its `ref` range string and the
`formulae` values of its `cellIs`/`equal` rules in priority order. -/
structure CondFmt where
  ref : String
  formulae : List String
deriving DecidableEq, Repr

/-- The produced worksheet: the value writes in program order, plus the
conditional-formatting blocks. -/
structure Worksheet where
  cells : List ((Nat × Nat) × XCell)
  condFmts : List CondFmt
deriving DecidableEq, Repr

/-- Read a cell of the produced worksheet (last write wins). -/
def wsGet (ws : Worksheet) (r c : Nat) : Option XCell :=
  ((ws.cells.filter (fun e => e.1 == (r, c))).getLast?).map (·.2)

/-- `SCORE_CONFIG[score].description`. -/
def scoreDescription (n : Int) : String :=
  if n = 3 then
    "Excellent capability - significant experience and past performance inputs; applicable to NITE SOW"
  else if n = 2 then
    "Good capability - significant experience and past performance inputs; applicable to NITE SOW and executed on other than Training programs but on related platforms"
  else if n = 1 then "Some capability - minor or scattered experience"
  else "No capability"

/-- `ExportMetadata`. -/
structure ExportMetadata where
  companyName : String
  date : String
  version : String
deriving DecidableEq, Repr

/-- The JS stable-sort "not after" relation induced by the comparator
`compareRequirementNumbers` (an element stays before another unless the
comparator is positive; a `NaN` comparator value also leaves order
unchanged). -/
def exportRowLe (a b : CapabilityMatrixRow) : Bool :=
  match compareRequirementNumbers a.requirementNumber b.requirementNumber with
  | some v => v ≤ 0
  | none => true

/-- The legend writes of rows 1–4 (scores `[3, 2, 1, 0]` in column D, their
descriptions in column E). -/
def legendWrites : List ((Nat × Nat) × XCell) :=
  [((1, 4), .xn 3), ((1, 5), .xs (scoreDescription 3)),
   ((2, 4), .xn 2), ((2, 5), .xs (scoreDescription 2)),
   ((3, 4), .xn 1), ((3, 5), .xs (scoreDescription 1)),
   ((4, 4), .xn 0), ((4, 5), .xs (scoreDescription 0))]

/-- The five value writes of the `i`-th data row (spreadsheet row
`10 + i`); an unrated score is written as `""`. -/
def dataRowWrites (i : Nat) (r : CapabilityMatrixRow) : List ((Nat × Nat) × XCell) :=
  [((10 + i, 1), .xs r.requirementNumber),
   ((10 + i, 2), .xs r.requirements),
   ((10 + i, 3), match r.experienceAndCapability with
                 | some n => .xn n
                 | none => .xs ""),
   ((10 + i, 4), .xs r.pastPerformance),
   ((10 + i, 5), .xs r.comments)]

/-- All data-row writes from index `i` on, in emission order. -/
def dataWritesFrom (i : Nat) : List CapabilityMatrixRow → List ((Nat × Nat) × XCell)
  | [] => []
  | r :: rest => dataRowWrites i r ++ dataWritesFrom (i + 1) rest

/-- All data-row writes, in emission order. -/
def allDataWrites (rows : List CapabilityMatrixRow) : List ((Nat × Nat) × XCell) :=
  dataWritesFrom 0 rows

/-- The fixed writes of rows 1–9: title, legend, company/date/version
metadata and the header row. -/
def titleAndMetaWrites (metadata : ExportMetadata) : List ((Nat × Nat) × XCell) :=
  [((1, 1), .xs "Draft PWS - Capability Matrix")] ++
  legendWrites ++
  [((5, 1), .xs "Company Name"), ((5, 3), .xs metadata.companyName),
   ((6, 1), .xs "Date"), ((6, 3), .xs metadata.date),
   ((7, 1), .xs "Version"), ((7, 3), .xs metadata.version),
   ((9, 1), .xs "Req #"), ((9, 2), .xs "Requirements"),
   ((9, 3), .xs "Experience and Capability"),
   ((9, 4), .xs "Past Performance"), ((9, 5), .xs "Comments")]

/-- The conditional formatting attached when at least one data row exists:
one block over `C10:C(9+count)` with `equal` rules for `3`, `2`, `1`, `0`. -/
def exportCondFmts (rows : List CapabilityMatrixRow) : List CondFmt :=
  if rows.length > 0 then
    [{ ref := "C10:C" ++ toString (10 + rows.length - 1)
       formulae := ["3", "2", "1", "0"] }]
  else []

/-- `exportMatrixToExcel`: title, legend, metadata rows 5–7, header row 9,
then one data row per matrix row from row 10 on, sorted by
`compareRequirementNumbers`; conditional formatting over the score
column. -/
def exportMatrixToExcel (matrix : MatrixWithRows) (metadata : ExportMetadata) :
    Worksheet :=
  let sortedRows := sortBy exportRowLe matrix.rows
  { cells := titleAndMetaWrites metadata ++ allDataWrites sortedRows
    condFmts := exportCondFmts sortedRows }

/-- A concrete matrix whose stored order differs from the natural
requirement-number order. -/
def exportSampleMatrix : MatrixWithRows :=
  ⟨"M", "Matrix",
   [⟨"r1", "M", "1.10", "ten", some 1, "", "", 0⟩,
    ⟨"r2", "M", "1.2", "two", none, "", "", 1⟩,
    ⟨"r3", "M", "", "unassigned", some 0, "", "", 2⟩]⟩

/-- Concrete export metadata. -/
def sampleMeta : ExportMetadata := ⟨"Acme", "2026-01-01", "v1"⟩

/-! ## Segment-wise comparison with zero padding (specification side)

The spec describes `compare` as segment-by-segment numeric comparison with
missing trailing segments read as 0; `padCmp` is that description, written
independently over integer segment lists. -/

/-- Remaining right-hand segments against an exhausted left side. -/
def padCmpRight : List Int → Int
  | [] => 0
  | b :: bs => if b ≠ 0 then -b else padCmpRight bs

/-- Remaining left-hand segments against an exhausted right side. -/
def padCmpLeft : List Int → Int
  | [] => 0
  | a :: as' => if a ≠ 0 then a else padCmpLeft as'

/-- Segment-wise three-way comparison, missing trailing segments read 0. -/
def padCmp : List Int → List Int → Int
  | [], bs => padCmpRight bs
  | a :: as', [] => if a ≠ 0 then a else padCmpLeft as'
  | a :: as', b :: bs' => if a ≠ b then a - b else padCmp as' bs'

/-- Head of a padded segment list (0 when exhausted). -/
def hd0 : List Int → Int
  | [] => 0
  | a :: _ => a

/-- The integer segments of a requirement-number string (its dot-separated
digit groups read as numbers). -/
def specSegs (a : String) : List Int :=
  (jsSplitDot a).map (fun s => (digitsToNat s.data : Int))

/-- The loop invariant of `buildComparisonData` after processing the scanned
pairs `Q`: the requirement map holds one entry per distinct non-empty key in
first-seen order; each entry's value carries its own key, the trimmed text of
the key's first occurrence, and per matrix the cell of the last matching row;
and the order map mirrors the keys with strictly increasing first-seen
indices, all below the counter. -/
def buildInv (Q : List (String × CapabilityMatrixRow)) (st : BuildState) : Prop :=
  st.reqMap.map Prod.fst = dedupKeepFirst (keysOfPairs Q) ∧
  (∀ e ∈ st.reqMap, e.2.normalizedRequirement = e.1) ∧
  (∀ e ∈ st.reqMap, firstReqTrimmed Q e.1 = some e.2.requirement) ∧
  (∀ e ∈ st.reqMap, ∀ mid, mapGet mid e.2.cells = lastCellForKey Q mid e.1) ∧
  st.orderMap.map Prod.fst = st.reqMap.map Prod.fst ∧
  (∀ k ∈ st.reqMap.map Prod.fst, (mapGet k st.orderMap).getD 0 < st.order) ∧
  (st.reqMap.map Prod.fst).Pairwise
    (fun k₁ k₂ => (mapGet k₁ st.orderMap).getD 0 < (mapGet k₂ st.orderMap).getD 0)

/-- `jsRound` is `⌊q + 1/2⌋`, i.e. JS `Math.round` on exact values. -/
theorem jsRound_eq_floor (q : ℚ) : jsRound q = ⌊q + 1/2⌋ := by
  have hden : ((q.den : ℚ)) ≠ 0 := by
    exact_mod_cast q.den_nz
  have hval : q + 1/2 = ((2 * q.num + (q.den : Int) : Int) : ℚ) / (((2 * q.den : ℕ) : ℕ) : ℚ) := by
    nth_rewrite 1 [← Rat.num_div_den q]
    push_cast
    field_simp
    ring
  rw [jsRound, hval, Rat.floor_intCast_div_natCast]
  push_cast
  rfl

theorem insertBy_perm (le : α → α → Bool) (a : α) :
    ∀ l : List α, (insertBy le a l).Perm (a :: l) := by
  intro l
  induction l with
  | nil => simp [insertBy]
  | cons b t ih =>
      by_cases h : le a b
      · simp [insertBy, h]
      · simp only [insertBy, if_neg h]
        exact (ih.cons b).trans (List.Perm.swap a b t)

theorem sortBy_perm (le : α → α → Bool) :
    ∀ l : List α, (sortBy le l).Perm l := by
  intro l
  induction l with
  | nil => simp [sortBy]
  | cons a t ih =>
      exact (insertBy_perm le a (sortBy le t)).trans (ih.cons a)

theorem insertBy_pairwise (le : α → α → Bool) (P : α → Prop)
    (htot : ∀ x y, P x → P y → le x y = true ∨ le y x = true)
    (htrans : ∀ x y z, P x → P y → P z →
      le x y = true → le y z = true → le x z = true)
    (a : α) (ha : P a) :
    ∀ l : List α, (∀ x ∈ l, P x) →
      l.Pairwise (fun x y => le x y = true) →
      (insertBy le a l).Pairwise (fun x y => le x y = true) := by
  intro l
  induction l with
  | nil => intro _ _; simp [insertBy]
  | cons b t ih =>
      intro hmem hsort
      have hPb : P b := hmem b (by simp)
      have hPt : ∀ x ∈ t, P x := fun x hx => hmem x (by simp [hx])
      rcases List.pairwise_cons.1 hsort with ⟨hbt, htsort⟩
      by_cases h : le a b
      · simp only [insertBy, h, if_pos rfl]
        refine List.pairwise_cons.2 ⟨?_, hsort⟩
        intro x hx
        rcases List.mem_cons.1 hx with rfl | hx
        · exact h
        · exact htrans a b x ha hPb (hPt x hx) h (hbt x hx)
      · have hba : le b a = true := by
          rcases htot a b ha hPb with h' | h'
          · exact absurd h' (by simpa using h)
          · exact h'
        simp only [insertBy, if_neg h]
        refine List.pairwise_cons.2 ⟨?_, ih hPt htsort⟩
        intro x hx
        have hx' := (insertBy_perm le a t).mem_iff.1 hx
        rcases List.mem_cons.1 hx' with rfl | hx'
        · exact hba
        · exact hbt x hx'

theorem sortBy_pairwise (le : α → α → Bool) (P : α → Prop)
    (htot : ∀ x y, P x → P y → le x y = true ∨ le y x = true)
    (htrans : ∀ x y z, P x → P y → P z →
      le x y = true → le y z = true → le x z = true) :
    ∀ l : List α, (∀ x ∈ l, P x) →
      (sortBy le l).Pairwise (fun x y => le x y = true) := by
  intro l
  induction l with
  | nil => intro _; simp [sortBy]
  | cons a t ih =>
      intro hmem
      have hPa : P a := hmem a (by simp)
      have hPt : ∀ x ∈ t, P x := fun x hx => hmem x (by simp [hx])
      have hmem' : ∀ x ∈ sortBy le t, P x := fun x hx =>
        hPt x ((sortBy_perm le t).mem_iff.1 hx)
      exact insertBy_pairwise le P htot htrans a hPa _ hmem' (ih hPt)

/-- A sorted list is a fixed point of `sortBy`. -/
theorem sortBy_of_pairwise (le : α → α → Bool) :
    ∀ l : List α, l.Pairwise (fun x y => le x y = true) → sortBy le l = l := by
  intro l
  induction l with
  | nil => simp [sortBy]
  | cons a t ih =>
      intro hsort
      rcases List.pairwise_cons.1 hsort with ⟨hat, htsort⟩
      rw [sortBy, ih htsort]
      cases t with
      | nil => simp [insertBy]
      | cons b t' => simp [insertBy, hat b (by simp)]

/-- Two sorted lists that are permutations of each other and whose keys are
pairwise distinct are equal. -/
theorem sorted_perm_nodup_eq (key : α → Int) :
    ∀ (l₁ l₂ : List α), l₁.Perm l₂ →
      l₁.Pairwise (fun x y => key x ≤ key y) →
      l₂.Pairwise (fun x y => key x ≤ key y) →
      (l₁.map key).Nodup → l₁ = l₂ := by
  intro l₁
  induction l₁ with
  | nil => intro l₂ hperm _ _ _; exact (hperm.nil_eq).symm ▸ rfl
  | cons a t₁ ih =>
      intro l₂ hperm hs₁ hs₂ hnd
      cases l₂ with
      | nil => exact absurd hperm.symm.nil_eq (by simp)
      | cons b t₂ =>
          rcases List.pairwise_cons.1 hs₁ with ⟨hat₁, hs₁'⟩
          rcases List.pairwise_cons.1 hs₂ with ⟨hbt₂, hs₂'⟩
          by_cases hab : a = b
          · subst hab
            have hperm' := hperm.cons_inv
            simp only [List.map_cons, List.nodup_cons] at hnd
            exact congrArg (a :: ·) (ih t₂ hperm' hs₁' hs₂' hnd.2)
          · exfalso
            have hbmem : b ∈ a :: t₁ := hperm.symm.subset (by simp)
            have hbt₁ : b ∈ t₁ := by
              rcases List.mem_cons.1 hbmem with h | h
              · exact absurd h.symm hab
              · exact h
            have hamem : a ∈ b :: t₂ := hperm.subset (by simp)
            have hat₂ : a ∈ t₂ := by
              rcases List.mem_cons.1 hamem with h | h
              · exact absurd h hab
              · exact h
            have h₁ : key a ≤ key b := hat₁ b hbt₁
            have h₂ : key b ≤ key a := hbt₂ a hat₂
            have hkey : key a = key b := le_antisymm h₁ h₂
            simp only [List.map_cons, List.nodup_cons] at hnd
            exact hnd.1 (hkey ▸ List.mem_map_of_mem key hbt₁)

/-! ## Lemmas about the ledger -/

theorem jsParseInt_small (n : Int) (h0 : 0 ≤ n) (h3 : n ≤ 3) :
    jsParseInt (jsIntToString n) = some n := by
  interval_cases n <;> decide

/-- Reading a stored score, rendering it back to the column format and
reading it again is the identity: scores survive a delete/restore cycle. -/
theorem parseScore_map_toString (v : Option String) :
    parseScore ((parseScore v).map jsIntToString) = parseScore v := by
  cases v with
  | none => rfl
  | some s =>
      cases h : jsParseInt s with
      | none => simp [parseScore, h]
      | some n =>
          by_cases hr : 0 ≤ n ∧ n ≤ 3
          · simp [parseScore, h, hr, jsParseInt_small n hr.1 hr.2]
          · simp [parseScore, h, hr]

/-- A deleted row, re-inserted by `restoreRows` and read back, is observably
the same row. -/
theorem mapMatrixRowRow_roundtrip (r : DbRow) :
    mapMatrixRowRow (dbRowOfCapRow (mapMatrixRowRow r)) = mapMatrixRowRow r := by
  simp [mapMatrixRowRow, dbRowOfCapRow, parseScore_map_toString]

theorem map_insertBy (f : α → β) (le : α → α → Bool) (le' : β → β → Bool)
    (hle : ∀ a b, le' (f a) (f b) = le a b) (a : α) :
    ∀ l : List α, (insertBy le a l).map f = insertBy le' (f a) (l.map f) := by
  intro l
  induction l with
  | nil => rfl
  | cons b t ih =>
      by_cases h : le a b
      · simp [insertBy, h, hle]
      · simp [insertBy, h, hle, ih]

theorem map_sortBy (f : α → β) (le : α → α → Bool) (le' : β → β → Bool)
    (hle : ∀ a b, le' (f a) (f b) = le a b) :
    ∀ l : List α, (sortBy le l).map f = sortBy le' (l.map f) := by
  intro l
  induction l with
  | nil => rfl
  | cons a t ih =>
      simp only [sortBy, List.map_cons, map_insertBy f le le' hle, ih]

/-- The observable row list, computed on mapped rows. -/
theorem rowsOf_eq_obs (st : Store) (mid : String) :
    rowsOf st mid =
      sortBy capRowOrderLe
        ((st.rows.filter (fun r => r.matrix_id == mid)).map mapMatrixRowRow) := by
  unfold rowsOf
  exact map_sortBy mapMatrixRowRow rowOrderLe capRowOrderLe (fun _ _ => rfl) _

/-- Sorting by display order is unique on permuted lists with distinct
display orders. -/
theorem sortBy_capRows_eq_of_perm (l₁ l₂ : List CapabilityMatrixRow)
    (hperm : l₁.Perm l₂) (hnd : (l₁.map (·.rowOrder)).Nodup) :
    sortBy capRowOrderLe l₁ = sortBy capRowOrderLe l₂ := by
  have htot : ∀ x y : CapabilityMatrixRow, True → True →
      capRowOrderLe x y = true ∨ capRowOrderLe y x = true := by
    intro x y _ _
    rcases le_total x.rowOrder y.rowOrder with h | h
    · exact Or.inl (by simpa [capRowOrderLe] using h)
    · exact Or.inr (by simpa [capRowOrderLe] using h)
  have htrans : ∀ x y z : CapabilityMatrixRow, True → True → True →
      capRowOrderLe x y = true → capRowOrderLe y z = true →
      capRowOrderLe x z = true := by
    intro x y z _ _ _ hxy hyz
    simp only [capRowOrderLe, decide_eq_true_eq] at *
    exact le_trans hxy hyz
  have hs₁ := sortBy_pairwise capRowOrderLe (fun _ => True) htot htrans l₁
    (fun _ _ => trivial)
  have hs₂ := sortBy_pairwise capRowOrderLe (fun _ => True) htot htrans l₂
    (fun _ _ => trivial)
  apply sorted_perm_nodup_eq (fun r => r.rowOrder)
  · exact (sortBy_perm _ l₁).trans (hperm.trans (sortBy_perm _ l₂).symm)
  · exact hs₁.imp (fun h => by simpa [capRowOrderLe] using h)
  · exact hs₂.imp (fun h => by simpa [capRowOrderLe] using h)
  · exact (((sortBy_perm capRowOrderLe l₁).map (·.rowOrder)).nodup_iff).2 hnd

/-- Core of the undo contract: restoring the deleted rows reproduces each
matrix's observable row list, provided display orders are distinct within
the matrix. -/
theorem delete_restore_rows_eq (st : Store) (now₁ now₂ text : String) (mid : String)
    (hdist : ((st.rows.filter (fun r => r.matrix_id == mid)).map (·.row_order)).Nodup) :
    rowsOf (restoreRows now₂ (deleteRowsByRequirement now₁ text st).2.deletedRows
      (deleteRowsByRequirement now₁ text st).1) mid = rowsOf st mid := by
  classical
  set p : DbRow → Bool :=
    fun r => sqlNormalize r.requirements == normalizeRequirement text with hp
  by_cases hempty : (st.rows.filter p).isEmpty
  · simp only [deleteRowsByRequirement, ← hp, hempty, if_pos rfl]
    simp [rowsOf, restoreRows, restoreAffectedIds, dedupKeepFirst]
  · simp only [deleteRowsByRequirement, ← hp, if_neg hempty]
    rw [rowsOf_eq_obs, rowsOf_eq_obs]
    set matched := st.rows.filter p with hm
    set keep := st.rows.filter (fun r => !(p r)) with hk
    have hfilterconv :
        (((keep ++ (matched.map mapMatrixRowRow).map dbRowOfCapRow).filter
            (fun r => r.matrix_id == mid)).map mapMatrixRowRow) =
          ((keep.filter (fun r => r.matrix_id == mid)).map mapMatrixRowRow ++
            (matched.filter (fun r => r.matrix_id == mid)).map mapMatrixRowRow) := by
      rw [List.filter_append, List.map_append]
      congr 1
      rw [List.map_map]
      rw [List.filter_map]
      rw [List.map_map]
      have h1 : (matched.filter
          ((fun r => r.matrix_id == mid) ∘ dbRowOfCapRow ∘ mapMatrixRowRow)) =
          matched.filter (fun r => r.matrix_id == mid) := by
        apply List.filter_congr
        intro r _
        rfl
      rw [h1]
      apply List.map_congr_left
      intro r _
      exact mapMatrixRowRow_roundtrip r
    show sortBy capRowOrderLe
        (((keep ++ (matched.map mapMatrixRowRow).map dbRowOfCapRow).filter
            (fun r => r.matrix_id == mid)).map mapMatrixRowRow) =
      sortBy capRowOrderLe
        ((st.rows.filter (fun r => r.matrix_id == mid)).map mapMatrixRowRow)
    rw [hfilterconv, ← List.map_append, ← List.filter_append]
    refine (sortBy_capRows_eq_of_perm
      ((st.rows.filter (fun r => r.matrix_id == mid)).map mapMatrixRowRow)
      (((keep ++ matched).filter (fun r => r.matrix_id == mid)).map mapMatrixRowRow)
      ?_ ?_).symm
    · have hperm0 : (matched ++ keep).Perm st.rows := by
        rw [hm, hk]
        exact List.filter_append_perm p st.rows
      have hperm1 : (keep ++ matched).Perm st.rows :=
        (List.perm_append_comm).trans hperm0
      exact ((hperm1.filter _).map _).symm
    · rw [List.map_map]
      exact hdist

/-- The set of matrices bumped by the restore is exactly the set bumped by
the delete. -/
theorem delete_restore_bumped_eq (st : Store) (now₁ text : String) :
    restoreAffectedIds (deleteRowsByRequirement now₁ text st).2.deletedRows =
      (deleteRowsByRequirement now₁ text st).2.affectedMatrixIds := by
  classical
  set p : DbRow → Bool :=
    fun r => sqlNormalize r.requirements == normalizeRequirement text with hp
  by_cases hempty : (st.rows.filter p).isEmpty
  · simp [deleteRowsByRequirement, ← hp, hempty, restoreAffectedIds, dedupKeepFirst]
  · simp only [deleteRowsByRequirement, ← hp, if_neg hempty]
    simp only [restoreAffectedIds, List.map_map]
    rfl

theorem dropWhile_congr_chars (p q : Char → Bool) :
    ∀ l : List Char, (∀ c ∈ l, p c = q c) → l.dropWhile p = l.dropWhile q := by
  intro l
  induction l with
  | nil => intro _; rfl
  | cons c t ih =>
      intro h
      have hc := h c (by simp)
      by_cases hq : q c
      · rw [List.dropWhile_cons, List.dropWhile_cons, hc, if_pos hq, if_pos hq]
        exact ih (fun x hx => h x (by simp [hx]))
      · rw [List.dropWhile_cons, List.dropWhile_cons, hc, if_neg hq, if_neg hq]

/-- On tame strings the two normalizations coincide. -/
theorem normalizeRequirement_eq_sqlNormalize (s : String) (h : asciiSpaceOnly s) :
    normalizeRequirement s = sqlNormalize s := by
  have hpq : ∀ c ∈ s.data, isJsWhitespace c = (c == ' ') := by
    intro c hc
    rcases h c hc with ⟨-, hw⟩
    by_cases hws : isJsWhitespace c
    · rw [hw hws]
      decide
    · have hne : ¬(c = ' ') := fun hceq => hws (by rw [hceq]; decide)
      simp [hws, hne]
  have htrim : trimEndsBy isJsWhitespace s.data = trimEndsBy (fun c => c == ' ') s.data := by
    unfold trimEndsBy
    rw [dropWhile_congr_chars _ _ s.data hpq]
    congr 1
    apply dropWhile_congr_chars
    intro c hc
    apply hpq
    have h2 : c ∈ s.data.dropWhile (fun c => c == ' ') := by
      simpa using hc
    exact (List.dropWhile_sublist _).subset h2
  show String.mk ((trimEndsBy isJsWhitespace s.data).map jsCharLower) =
    String.mk ((trimEndsBy (fun c => c == ' ') s.data).map jsCharLower)
  rw [htrim]

/-! ## Decimal rendering round-trips -/

theorem digitChar_toNat (d : Nat) (hd : d < 10) : (Char.ofNat (48 + d)).toNat = 48 + d := by
  interval_cases d <;> decide

theorem digitChar_isDigit (d : Nat) (hd : d < 10) :
    isDigitChar (Char.ofNat (48 + d)) = true := by
  interval_cases d <;> decide

theorem natDigitsRev_lt10 (fuel : Nat) : ∀ n, ∀ d ∈ natDigitsRev fuel n, d < 10 := by
  induction fuel with
  | zero => intro n d hd; simp [natDigitsRev] at hd
  | succ fuel ih =>
      intro n d hd
      by_cases h : n = 0
      · simp [natDigitsRev, h] at hd
      · simp only [natDigitsRev, if_neg h, List.mem_cons] at hd
        rcases hd with rfl | hd
        · exact Nat.mod_lt _ (by norm_num)
        · exact ih _ d hd

theorem natDigitsRev_spec (fuel : Nat) : ∀ n, n ≤ fuel → ofDigitsLE (natDigitsRev fuel n) = n := by
  induction fuel with
  | zero =>
      intro n h
      interval_cases n
      rfl
  | succ fuel ih =>
      intro n h
      by_cases h0 : n = 0
      · simp [natDigitsRev, h0, ofDigitsLE]
      · simp only [natDigitsRev, if_neg h0, ofDigitsLE]
        have hdiv : n / 10 < n := Nat.div_lt_self (Nat.pos_of_ne_zero h0) (by norm_num)
        rw [ih _ (by omega)]
        exact Nat.mod_add_div n 10

theorem foldl_digits_chars (l : List Nat) (hl : ∀ d ∈ l, d < 10) :
    ∀ acc : Nat,
      (l.map (fun d => Char.ofNat (48 + d))).foldl (fun a c => a * 10 + (c.toNat - 48)) acc =
        l.foldl (fun a d => a * 10 + d) acc := by
  induction l with
  | nil => intro acc; rfl
  | cons d t ih =>
      intro acc
      simp only [List.map_cons, List.foldl_cons]
      rw [digitChar_toNat d (hl d (by simp))]
      have h48 : 48 + d - 48 = d := by omega
      rw [h48]
      exact ih (fun x hx => hl x (by simp [hx])) _

theorem foldl_reverse_eq_ofDigitsLE (ds : List Nat) :
    ds.reverse.foldl (fun a d => a * 10 + d) 0 = ofDigitsLE ds := by
  induction ds with
  | nil => rfl
  | cons d t ih =>
      simp only [List.reverse_cons, List.foldl_append, List.foldl_cons, List.foldl_nil,
        ofDigitsLE, ih]
      omega

theorem natToString_spec (n : Nat) :
    (natToString n).data ≠ [] ∧ (∀ c ∈ (natToString n).data, isDigitChar c = true) ∧
      digitsToNat (natToString n).data = n := by
  by_cases h0 : n = 0
  · subst h0
    exact ⟨by decide, by decide, by decide⟩
  · have hne : natDigitsRev n n ≠ [] := by
      cases hn : n with
      | zero => exact absurd hn h0
      | succ m => simp [natDigitsRev, hn.symm ▸ h0]
    have hlt : ∀ d ∈ (natDigitsRev n n).reverse, d < 10 := by
      intro d hd
      exact natDigitsRev_lt10 n n d (List.mem_reverse.1 hd)
    simp only [natToString, if_neg h0]
    refine ⟨?_, ?_, ?_⟩
    · simp only [ne_eq, List.map_eq_nil_iff, List.reverse_eq_nil_iff]
      exact hne
    · intro c hc
      rcases List.mem_map.1 hc with ⟨d, hd, rfl⟩
      exact digitChar_isDigit d (hlt d hd)
    · show digitsToNat ((natDigitsRev n n).reverse.map (fun d => Char.ofNat (48 + d))) = n
      unfold digitsToNat
      rw [foldl_digits_chars _ hlt, foldl_reverse_eq_ofDigitsLE, natDigitsRev_spec n n le_rfl]

/-- Rendering then `Number`-parsing a natural number is the identity. -/
theorem jsNumber_natToString (n : Nat) : jsNumber (natToString n) = some (n : Int) := by
  obtain ⟨hne, hdig, hval⟩ := natToString_spec n
  simp only [jsNumber, List.isEmpty_iff, hne, if_neg hne]
  rw [if_neg (by simp [hne]), if_pos (by simpa [List.all_eq_true] using hdig)]
  exact congrArg some (congrArg Int.ofNat hval)

theorem isDigitChar_not_ws (c : Char) (h : isDigitChar c = true) :
    isJsWhitespace c = false := by
  simp only [isDigitChar, Bool.and_eq_true, decide_eq_true_eq] at h
  simp only [isJsWhitespace, Bool.or_eq_false_iff, Bool.and_eq_false_iff,
    beq_eq_false_iff_ne, ne_eq, decide_eq_false_iff_not, not_le]
  omega

theorem takeWhile_eq_self_of_all (p : α → Bool) :
    ∀ l : List α, (∀ x ∈ l, p x = true) → l.takeWhile p = l := by
  intro l
  induction l with
  | nil => intro _; rfl
  | cons a t ih =>
      intro h
      rw [List.takeWhile_cons, if_pos (h a (by simp))]
      rw [ih (fun x hx => h x (by simp [hx]))]

/-- `parseInt` of a non-empty all-digit string is its decimal value. -/
theorem jsParseInt_digits (l : List Char) (hne : l ≠ [])
    (hdig : ∀ c ∈ l, isDigitChar c = true) :
    jsParseInt ⟨l⟩ = some (digitsToNat l : Int) := by
  cases l with
  | nil => exact absurd rfl hne
  | cons c t =>
      have hc := hdig c (by simp)
      have hcn : 48 ≤ c.toNat ∧ c.toNat ≤ 57 := by
        simpa [isDigitChar, Bool.and_eq_true, decide_eq_true_eq] using hc
      have hdrop : (c :: t).dropWhile isJsWhitespace = c :: t := by
        rw [List.dropWhile_cons, if_neg]
        simp [isDigitChar_not_ws c hc]
      have hnotminus : ((c :: t).headD ' ' == '-') = false := by
        simp only [List.headD_cons, beq_eq_false_iff_ne, ne_eq]
        intro hceq
        rw [hceq] at hcn
        exact absurd hcn (by decide)
      have hnotplus : ((c :: t).headD ' ' == '+') = false := by
        simp only [List.headD_cons, beq_eq_false_iff_ne, ne_eq]
        intro hceq
        rw [hceq] at hcn
        exact absurd hcn (by decide)
      have htake : (c :: t).takeWhile isDigitChar = c :: t :=
        takeWhile_eq_self_of_all _ _ hdig
      show jsParseInt ⟨c :: t⟩ = some (digitsToNat (c :: t) : Int)
      simp only [jsParseInt]
      simp only [hdrop, hnotminus, hnotplus, Bool.false_or, Bool.or_self,
        Bool.false_eq_true, if_false, htake]
      rw [if_neg (by simp), one_mul]

/-- Rendering then `parseInt`-parsing a non-negative integer is the
identity. -/
theorem jsParseInt_jsIntToString (n : Int) (h0 : 0 ≤ n) :
    jsParseInt (jsIntToString n) = some n := by
  obtain ⟨hne, hdig, hval⟩ := natToString_spec n.natAbs
  have hrepr : jsIntToString n = natToString n.natAbs := by
    rw [jsIntToString, if_neg (by omega)]
  rw [hrepr]
  have heta : (natToString n.natAbs) = ⟨(natToString n.natAbs).data⟩ := rfl
  rw [heta, jsParseInt_digits _ hne hdig]
  rw [hval, Int.natAbs_of_nonneg h0]

theorem distinctRowOrders_all (st : Store) (h : distinctRowOrders st) (mid : String) :
    ((st.rows.filter (fun r => r.matrix_id == mid)).map (fun r => r.row_order)).Nodup := by
  by_cases hmem : mid ∈ st.rows.map (fun r => r.matrix_id)
  · exact h mid hmem
  · have hnil : st.rows.filter (fun r => r.matrix_id == mid) = [] := by
      rw [List.filter_eq_nil_iff]
      intro r hr hpr
      exact hmem (List.mem_map.2 ⟨r, hr, by simpa using hpr⟩)
    simp [hnil]

/-! ## Splitting and joining dotted numbers -/

theorem splitOnChar_no_sep (sep : Char) :
    ∀ l : List Char, (∀ c ∈ l, (c == sep) = false) → splitOnChar sep l = [l] := by
  intro l
  induction l with
  | nil => intro _; rfl
  | cons c t ih =>
      intro h
      have hc : (c == sep) = false := h c (by simp)
      simp only [splitOnChar, hc, Bool.false_eq_true, if_false]
      rw [ih (fun x hx => h x (by simp [hx]))]

theorem splitOnChar_append_sep (sep : Char) :
    ∀ p l, (∀ c ∈ p, (c == sep) = false) →
      splitOnChar sep (p ++ sep :: l) = p :: splitOnChar sep l := by
  intro p
  induction p with
  | nil =>
      intro l _
      simp only [List.nil_append, splitOnChar, beq_self_eq_true, if_true]
  | cons c t ih =>
      intro l h
      have hc : (c == sep) = false := h c (by simp)
      simp only [List.cons_append, splitOnChar, hc, Bool.false_eq_true, if_false,
        List.append_eq]
      rw [ih l (fun x hx => h x (by simp [hx]))]

theorem splitOnChar_joinSep (sep : Char) :
    ∀ parts : List (List Char), parts ≠ [] →
      (∀ p ∈ parts, ∀ c ∈ p, (c == sep) = false) →
      splitOnChar sep (joinSepChars sep parts) = parts := by
  intro parts
  induction parts with
  | nil => intro h _; exact absurd rfl h
  | cons p rest ih =>
      intro _ h
      cases rest with
      | nil =>
          show splitOnChar sep (joinSepChars sep [p]) = [p]
          rw [show joinSepChars sep [p] = p from rfl]
          exact splitOnChar_no_sep sep p (h p (by simp))
      | cons q rest' =>
          show splitOnChar sep (p ++ sep :: joinSepChars sep (q :: rest')) = p :: q :: rest'
          rw [splitOnChar_append_sep sep p _ (h p (by simp))]
          rw [ih (by simp) (fun x hx => h x (by simp [hx]))]

theorem map_mk_data (l : List String) :
    (l.map (fun s => s.data)).map (fun d => (⟨d⟩ : String)) = l := by
  induction l with
  | nil => rfl
  | cons s t ih => simp only [List.map_cons, ih]

theorem isDigitChar_ne_dot (c : Char) (h : isDigitChar c = true) : (c == '.') = false := by
  simp only [isDigitChar, Bool.and_eq_true, decide_eq_true_eq] at h
  simp only [beq_eq_false_iff_ne, ne_eq]
  intro hc
  rw [hc] at h
  exact absurd h (by decide)

/-- The segments of a non-empty valid requirement number are non-empty
digit strings. -/
theorem valid_segments (s : String) (hval : isValidRequirementNumber s = true)
    (hne : s ≠ "") :
    ∀ seg ∈ jsSplitDot s, seg.data ≠ [] ∧ ∀ c ∈ seg.data, isDigitChar c = true := by
  intro seg hseg
  unfold isValidRequirementNumber at hval
  rw [if_neg hne] at hval
  have := (List.all_eq_true.1 hval) seg hseg
  simp only [Bool.and_eq_true, Bool.not_eq_eq_eq_not, Bool.not_true, beq_eq_false_iff_ne,
    ne_eq, List.all_eq_true] at this
  refine ⟨?_, this.2⟩
  intro hdata
  exact this.1 (by cases seg; simp at hdata; simp [hdata])

theorem jsNumber_digits (seg : String) (hne : seg.data ≠ [])
    (hdig : ∀ c ∈ seg.data, isDigitChar c = true) :
    jsNumber seg = some (digitsToNat seg.data : Int) := by
  unfold jsNumber
  rw [if_neg (by simp [hne]), if_pos (by simpa [List.all_eq_true] using hdig)]

theorem jsParseInt_of_valid_seg (seg : String) (hne : seg.data ≠ [])
    (hdig : ∀ c ∈ seg.data, isDigitChar c = true) :
    jsParseInt seg = some (digitsToNat seg.data : Int) := by
  have heta : seg = ⟨seg.data⟩ := rfl
  rw [heta]
  exact jsParseInt_digits seg.data hne hdig

/-! ## The requirement-number order -/

theorem cmpSegRight_some (bs : List Int) :
    cmpSegRight (bs.map some) = some (padCmpRight bs) := by
  induction bs with
  | nil => rfl
  | cons b t ih =>
      show (if jsNe (some 0) (some b) then jsSub (some 0) (some b) else cmpSegRight (t.map some)) =
        some (if b ≠ 0 then -b else padCmpRight t)
      by_cases hb : b = 0
      · subst hb
        simp only [jsNe, bne_self_eq_false, Bool.false_eq_true, if_false, ih, ne_eq,
          not_true_eq_false, if_false]
      · rw [if_pos (by simp [jsNe]; omega), if_pos hb]
        show some (0 - b) = some (-b)
        rw [zero_sub]

theorem cmpSegLeft_some (as' : List Int) :
    cmpSegLeft (as'.map some) = some (padCmpLeft as') := by
  induction as' with
  | nil => rfl
  | cons a t ih =>
      show (if jsNe (some a) (some 0) then jsSub (some a) (some 0) else cmpSegLeft (t.map some)) =
        some (if a ≠ 0 then a else padCmpLeft t)
      by_cases ha : a = 0
      · subst ha
        simp only [jsNe, bne_self_eq_false, Bool.false_eq_true, if_false, ih, ne_eq,
          not_true_eq_false, if_false]
      · rw [if_pos (by simp [jsNe, ha]), if_pos ha]
        show some (a - 0) = some a
        rw [sub_zero]

theorem cmpSegLoop_some :
    ∀ as' bs : List Int,
      cmpSegLoop (as'.map some) (bs.map some) = some (padCmp as' bs) := by
  intro as'
  induction as' with
  | nil => intro bs; exact cmpSegRight_some bs
  | cons a t ih =>
      intro bs
      cases bs with
      | nil =>
          show (if jsNe (some a) (some 0) then jsSub (some a) (some 0)
            else cmpSegLeft (t.map some)) = some (if a ≠ 0 then a else padCmpLeft t)
          by_cases ha : a = 0
          · subst ha
            simp only [jsNe, bne_self_eq_false, Bool.false_eq_true, if_false,
              cmpSegLeft_some, ne_eq, not_true_eq_false, if_false]
          · rw [if_pos (by simp [jsNe, ha]), if_pos ha]
            show some (a - 0) = some a
            rw [sub_zero]
      | cons b u =>
          show (if jsNe (some a) (some b) then jsSub (some a) (some b)
            else cmpSegLoop (t.map some) (u.map some)) =
            some (if a ≠ b then a - b else padCmp t u)
          by_cases hab : a = b
          · subst hab
            simp only [jsNe, bne_self_eq_false, Bool.false_eq_true, if_false, ih, ne_eq,
              not_true_eq_false, if_false]
          · rw [if_pos (by simp [jsNe, hab]), if_pos hab]
            rfl

theorem padCmp_self : ∀ l : List Int, padCmp l l = 0 := by
  intro l
  induction l with
  | nil => rfl
  | cons a t ih =>
      show (if a ≠ a then a - a else padCmp t t) = 0
      rw [if_neg (by simp), ih]

theorem padCmpRight_neg (l : List Int) : padCmpRight l = -(padCmpLeft l) := by
  induction l with
  | nil => rfl
  | cons a t ih =>
      show (if a ≠ 0 then -a else padCmpRight t) = -(if a ≠ 0 then a else padCmpLeft t)
      by_cases ha : a = 0
      · rw [if_neg (by simp [ha]), if_neg (by simp [ha]), ih]
      · rw [if_pos ha, if_pos ha]

theorem padCmp_nil_right : ∀ l : List Int, padCmp l [] = padCmpLeft l := by
  intro l
  cases l <;> rfl

theorem padCmp_neg : ∀ a b : List Int, padCmp a b = -(padCmp b a) := by
  intro a
  induction a with
  | nil =>
      intro b
      show padCmpRight b = -(padCmp b [])
      rw [padCmp_nil_right, padCmpRight_neg]
  | cons x t ih =>
      intro b
      cases b with
      | nil =>
          show (if x ≠ 0 then x else padCmpLeft t) = -(padCmpRight (x :: t))
          show (if x ≠ 0 then x else padCmpLeft t) = -(if x ≠ 0 then -x else padCmpRight t)
          by_cases hx : x = 0
          · rw [if_neg (by simp [hx]), if_neg (by simp [hx]), padCmpRight_neg, neg_neg]
          · rw [if_pos hx, if_pos hx, neg_neg]
      | cons y u =>
          show (if x ≠ y then x - y else padCmp t u) = -(if y ≠ x then y - x else padCmp u t)
          by_cases hxy : x = y
          · rw [if_neg (by simp [hxy]), if_neg (by simp [hxy]), ih u]
          · rw [if_pos hxy, if_pos (by simp [Ne.symm hxy]), neg_sub]

/-- Head of a padded list. -/
theorem padCmp_unfold (xs ys : List Int) :
    padCmp xs ys = if xs = [] ∧ ys = [] then 0
      else if hd0 xs ≠ hd0 ys then hd0 xs - hd0 ys
      else padCmp xs.tail ys.tail := by
  cases xs with
  | nil =>
      cases ys with
      | nil => rfl
      | cons b u =>
          rw [if_neg (by simp)]
          show padCmpRight (b :: u) = _
          show (if b ≠ 0 then -b else padCmpRight u) = _
          by_cases hb : b = 0
          · rw [if_neg (by simp [hb])]
            rw [if_neg (by simp [hd0, hb])]
            rfl
          · rw [if_pos hb, if_pos (by simp [hd0]; omega)]
            show -b = 0 - b
            rw [zero_sub]
  | cons a t =>
      cases ys with
      | nil =>
          rw [if_neg (by simp)]
          show (if a ≠ 0 then a else padCmpLeft t) = _
          by_cases ha : a = 0
          · rw [if_neg (by simp [ha]), if_neg (by simp [hd0, ha])]
            show padCmpLeft t = padCmp t []
            rw [padCmp_nil_right]
          · rw [if_pos ha, if_pos (by simp [hd0]; omega)]
            show a = a - 0
            rw [sub_zero]
      | cons b u =>
          rw [if_neg (by simp)]
          rfl

theorem padCmp_le_destruct (a b : List Int) (h : padCmp a b ≤ 0) :
    hd0 a ≤ hd0 b ∧ (hd0 a = hd0 b → padCmp a.tail b.tail ≤ 0) := by
  rw [padCmp_unfold] at h
  by_cases hab : a = [] ∧ b = []
  · refine ⟨by rw [hab.1, hab.2], fun _ => ?_⟩
    rw [hab.1, hab.2]
    show padCmp [] [] ≤ 0
    exact le_refl 0
  · rw [if_neg hab] at h
    by_cases hhd : hd0 a = hd0 b
    · rw [if_neg (by simp [hhd])] at h
      exact ⟨le_of_eq hhd, fun _ => h⟩
    · rw [if_pos hhd] at h
      exact ⟨by omega, fun hc => absurd hc hhd⟩

theorem padCmp_trans :
    ∀ n (a b c : List Int), a.length + b.length + c.length ≤ n →
      padCmp a b ≤ 0 → padCmp b c ≤ 0 → padCmp a c ≤ 0 := by
  intro n
  induction n with
  | zero =>
      intro a b c hlen h1 h2
      have ha : a = [] := List.length_eq_zero.1 (by omega)
      have hc : c = [] := List.length_eq_zero.1 (by omega)
      rw [ha, hc]
      exact le_refl 0
  | succ n ih =>
      intro a b c hlen h1 h2
      obtain ⟨hab, htab⟩ := padCmp_le_destruct a b h1
      obtain ⟨hbc, htbc⟩ := padCmp_le_destruct b c h2
      rw [padCmp_unfold]
      by_cases hac : a = [] ∧ c = []
      · rw [if_pos hac]
      · rw [if_neg hac]
        by_cases hhd : hd0 a = hd0 c
        · rw [if_neg (by simp [hhd])]
          have hb1 : hd0 a = hd0 b := by omega
          have hb2 : hd0 b = hd0 c := by omega
          apply ih a.tail b.tail c.tail
          · have h1 : a.tail.length = a.length - 1 := by
              cases a <;> simp
            have h2 : b.tail.length = b.length - 1 := by
              cases b <;> simp
            have h3 : c.tail.length = c.length - 1 := by
              cases c <;> simp
            have h4 : a ≠ [] ∨ c ≠ [] := by
              by_contra hcon
              push_neg at hcon
              exact hac ⟨hcon.1, hcon.2⟩
            have h5 : 1 ≤ a.length ∨ 1 ≤ c.length := by
              rcases h4 with h | h
              · left
                cases a with
                | nil => exact absurd rfl h
                | cons _ _ => simp
              · right
                cases c with
                | nil => exact absurd rfl h
                | cons _ _ => simp
            omega
          · exact htab hb1
          · exact htbc hb2
        · rw [if_pos hhd]
          omega

theorem jsSplitDot_map_jsNumber (s : String) (hval : isValidRequirementNumber s = true)
    (hne : s ≠ "") :
    (jsSplitDot s).map jsNumber = (specSegs s).map some := by
  unfold specSegs
  rw [List.map_map]
  apply List.map_congr_left
  intro seg hseg
  obtain ⟨hne', hdig⟩ := valid_segments s hval hne seg hseg
  exact jsNumber_digits seg hne' hdig

/-- On non-empty valid strings, `compareRequirementNumbers` is exactly the
segment-wise zero-padded comparison of the numeric segments. -/
theorem compare_eq_padCmp (a b : String) (ha : isValidRequirementNumber a = true)
    (hb : isValidRequirementNumber b = true) (hna : a ≠ "") (hnb : b ≠ "") :
    compareRequirementNumbers a b = some (padCmp (specSegs a) (specSegs b)) := by
  unfold compareRequirementNumbers
  rw [if_neg (by simp [hna]), if_neg hna, if_neg hnb]
  rw [jsSplitDot_map_jsNumber a ha hna, jsSplitDot_map_jsNumber b hb hnb]
  exact cmpSegLoop_some _ _

theorem compare_empty_left (b : String) (hnb : b ≠ "") :
    compareRequirementNumbers "" b = some 1 := by
  unfold compareRequirementNumbers
  rw [if_neg (by simp [hnb]), if_pos rfl]

theorem compare_empty_right (a : String) (hna : a ≠ "") :
    compareRequirementNumbers a "" = some (-1) := by
  unfold compareRequirementNumbers
  rw [if_neg (by simp [hna]), if_neg hna, if_pos rfl]

theorem compare_antisym_of_valid (a b : String)
    (ha : isValidRequirementNumber a = true) (hb : isValidRequirementNumber b = true) :
    ∃ v, compareRequirementNumbers a b = some v ∧
      compareRequirementNumbers b a = some (-v) := by
  by_cases hna : a = ""
  · by_cases hnb : b = ""
    · subst hna
      subst hnb
      exact ⟨0, by decide, by decide⟩
    · subst hna
      exact ⟨1, compare_empty_left b hnb, compare_empty_right b hnb⟩
  · by_cases hnb : b = ""
    · subst hnb
      refine ⟨-1, compare_empty_right a hna, ?_⟩
      rw [neg_neg]
      exact compare_empty_left a hna
    · refine ⟨padCmp (specSegs a) (specSegs b),
        compare_eq_padCmp a b ha hb hna hnb, ?_⟩
      rw [compare_eq_padCmp b a hb ha hnb hna, padCmp_neg (specSegs b) (specSegs a)]

theorem compare_trans_of_valid (a b c : String)
    (ha : isValidRequirementNumber a = true) (hb : isValidRequirementNumber b = true)
    (hc : isValidRequirementNumber c = true) (u v : Int)
    (h1 : compareRequirementNumbers a b = some u) (hu : u ≤ 0)
    (h2 : compareRequirementNumbers b c = some v) (hv : v ≤ 0) :
    ∃ w, compareRequirementNumbers a c = some w ∧ w ≤ 0 := by
  by_cases hna : a = ""
  · subst hna
    by_cases hnb : b = ""
    · subst hnb
      exact ⟨v, h2, hv⟩
    · rw [compare_empty_left b hnb] at h1
      have := Option.some.inj h1
      omega
  · by_cases hnc : c = ""
    · subst hnc
      exact ⟨-1, compare_empty_right a hna, by omega⟩
    · by_cases hnb : b = ""
      · subst hnb
        rw [compare_empty_left c hnc] at h2
        have := Option.some.inj h2
        omega
      · rw [compare_eq_padCmp a b ha hb hna hnb] at h1
        rw [compare_eq_padCmp b c hb hc hnb hnc] at h2
        refine ⟨padCmp (specSegs a) (specSegs c),
          compare_eq_padCmp a c ha hc hna hnc, ?_⟩
        have hu' : padCmp (specSegs a) (specSegs b) ≤ 0 := by
          have := Option.some.inj h1
          omega
        have hv' : padCmp (specSegs b) (specSegs c) ≤ 0 := by
          have := Option.some.inj h2
          omega
        exact padCmp_trans
          ((specSegs a).length + (specSegs b).length + (specSegs c).length)
          (specSegs a) (specSegs b) (specSegs c) le_rfl hu' hv'

theorem exportRowLe_total (x y : CapabilityMatrixRow)
    (hx : isValidRequirementNumber x.requirementNumber = true)
    (hy : isValidRequirementNumber y.requirementNumber = true) :
    exportRowLe x y = true ∨ exportRowLe y x = true := by
  obtain ⟨v, h1, h2⟩ := compare_antisym_of_valid _ _ hx hy
  by_cases hv : v ≤ 0
  · left
    unfold exportRowLe
    rw [h1]
    simpa using hv
  · right
    unfold exportRowLe
    rw [h2]
    simp only [decide_eq_true_eq]
    omega

theorem exportRowLe_trans (x y z : CapabilityMatrixRow)
    (hx : isValidRequirementNumber x.requirementNumber = true)
    (hy : isValidRequirementNumber y.requirementNumber = true)
    (hz : isValidRequirementNumber z.requirementNumber = true)
    (h1 : exportRowLe x y = true) (h2 : exportRowLe y z = true) :
    exportRowLe x z = true := by
  obtain ⟨u, hu, -⟩ := compare_antisym_of_valid _ _ hx hy
  obtain ⟨v, hv, -⟩ := compare_antisym_of_valid _ _ hy hz
  unfold exportRowLe at h1 h2
  rw [hu] at h1
  rw [hv] at h2
  have hu' : u ≤ 0 := by simpa using h1
  have hv' : v ≤ 0 := by simpa using h2
  obtain ⟨w, hw, hwle⟩ := compare_trans_of_valid _ _ _ hx hy hz u v hu hu' hv hv'
  unfold exportRowLe
  rw [hw]
  simpa using hwle

/-! ## Worksheet lookups on the exported sheet -/

theorem dataRowWrites_row (k : Nat) (r : CapabilityMatrixRow) :
    ∀ e ∈ dataRowWrites k r, e.1.1 = 10 + k := by
  intro e he
  simp only [dataRowWrites, List.mem_cons, List.not_mem_nil, or_false] at he
  rcases he with rfl | rfl | rfl | rfl | rfl <;> rfl

theorem dataWritesFrom_row_bounds :
    ∀ (rows : List CapabilityMatrixRow) (k : Nat), ∀ e ∈ dataWritesFrom k rows,
      10 + k ≤ e.1.1 ∧ e.1.1 < 10 + k + rows.length := by
  intro rows
  induction rows with
  | nil => intro k e he; simp [dataWritesFrom] at he
  | cons r rest ih =>
      intro k e he
      rw [dataWritesFrom] at he
      rcases List.mem_append.1 he with he | he
      · have hr := dataRowWrites_row k r e he
        refine ⟨by omega, ?_⟩
        simp only [List.length_cons]
        omega
      · have hr := ih (k + 1) e he
        refine ⟨by omega, ?_⟩
        simp only [List.length_cons]
        omega

theorem filter_eq_nil_of_rows_ne (l : List ((Nat × Nat) × XCell)) (r c : Nat)
    (h : ∀ e ∈ l, e.1.1 ≠ r) :
    l.filter (fun e => e.1 == (r, c)) = [] := by
  rw [List.filter_eq_nil_iff]
  intro e he hbeq
  have heq : e.1 = (r, c) := by simpa using hbeq
  exact h e he (by rw [heq])

theorem titleMeta_row_le9 (meta : ExportMetadata) :
    ∀ e ∈ titleAndMetaWrites meta, e.1.1 ≤ 9 := by
  intro e he
  simp only [titleAndMetaWrites, legendWrites, List.cons_append, List.nil_append,
    List.mem_cons, List.not_mem_nil, or_false] at he
  rcases he with rfl | rfl | rfl | rfl | rfl | rfl | rfl | rfl | rfl | rfl | rfl | rfl |
    rfl | rfl | rfl | rfl | rfl | rfl | rfl | rfl <;> simp

theorem dataWritesFrom_filter_get :
    ∀ (rows : List CapabilityMatrixRow) (k i c : Nat) (h : i < rows.length),
      (dataWritesFrom k rows).filter (fun e => e.1 == (10 + k + i, c)) =
        (dataRowWrites (k + i) (rows.get ⟨i, h⟩)).filter
          (fun e => e.1 == (10 + k + i, c)) := by
  intro rows
  induction rows with
  | nil => intro k i c h; simp at h
  | cons r rest ih =>
      intro k i c h
      rw [dataWritesFrom, List.filter_append]
      cases i with
      | zero =>
          have h2 : (dataWritesFrom (k + 1) rest).filter
              (fun e => e.1 == (10 + k + 0, c)) = [] := by
            apply filter_eq_nil_of_rows_ne
            intro e he
            have := (dataWritesFrom_row_bounds rest (k + 1) e he).1
            omega
          rw [h2, List.append_nil]
          rfl
      | succ i' =>
          have h1 : (dataRowWrites k r).filter
              (fun e => e.1 == (10 + k + (i' + 1), c)) = [] := by
            apply filter_eq_nil_of_rows_ne
            intro e he
            have := dataRowWrites_row k r e he
            omega
          rw [h1, List.nil_append]
          rw [show 10 + k + (i' + 1) = 10 + (k + 1) + i' by omega]
          rw [ih (k + 1) i' c (by simpa using Nat.lt_of_succ_lt_succ h)]
          rw [show k + 1 + i' = k + (i' + 1) by omega]
          rfl

theorem wsGet_export_data (m : MatrixWithRows) (meta : ExportMetadata) (i c : Nat)
    (h : i < (sortBy exportRowLe m.rows).length) :
    wsGet (exportMatrixToExcel m meta) (10 + i) c =
      ((dataRowWrites i ((sortBy exportRowLe m.rows).get ⟨i, h⟩)).filter
        (fun e => e.1 == (10 + i, c))).getLast?.map (fun e => e.2) := by
  unfold wsGet
  show (((titleAndMetaWrites meta ++ dataWritesFrom 0 (sortBy exportRowLe m.rows)).filter
      (fun e => e.1 == (10 + i, c))).getLast?).map (fun e => e.2) = _
  rw [List.filter_append,
    filter_eq_nil_of_rows_ne _ _ _
      (fun e he => by have := titleMeta_row_le9 meta e he; omega),
    List.nil_append]
  rw [show 10 + i = 10 + 0 + i by omega]
  rw [dataWritesFrom_filter_get (sortBy exportRowLe m.rows) 0 i c h]
  rw [Nat.zero_add]

theorem wsGet_export_past_data (m : MatrixWithRows) (meta : ExportMetadata) (r c : Nat)
    (h : 10 + (sortBy exportRowLe m.rows).length ≤ r) :
    wsGet (exportMatrixToExcel m meta) r c = none := by
  unfold wsGet
  show (((titleAndMetaWrites meta ++ dataWritesFrom 0 (sortBy exportRowLe m.rows)).filter
      (fun e => e.1 == (r, c))).getLast?).map (fun e => e.2) = _
  rw [List.filter_append,
    filter_eq_nil_of_rows_ne _ _ _
      (fun e he => by have := titleMeta_row_le9 meta e he; omega),
    List.nil_append,
    filter_eq_nil_of_rows_ne _ _ _
      (fun e he => by
        have := (dataWritesFrom_row_bounds (sortBy exportRowLe m.rows) 0 e he).2
        omega)]
  rfl

/-! ## The comparison-aggregator loop -/

theorem mapGet_eq_none_iff (k : String) :
    ∀ m : List (String × β), mapGet k m = none ↔ k ∉ m.map Prod.fst := by
  intro m
  induction m with
  | nil => simp [mapGet]
  | cons e t ih =>
      obtain ⟨k', v'⟩ := e
      by_cases h : k' = k
      · subst h
        simp [mapGet]
      · simp [mapGet, h, ih, Ne.symm h]

theorem mapSet_eq_append (k : String) (v : β) :
    ∀ m : List (String × β), k ∉ m.map Prod.fst → mapSet k v m = m ++ [(k, v)] := by
  intro m
  induction m with
  | nil => intro _; rfl
  | cons e t ih =>
      obtain ⟨k', v'⟩ := e
      intro hk
      simp only [List.map_cons, List.mem_cons, not_or] at hk
      simp only [mapSet]
      rw [if_neg (fun hh => hk.1 hh.symm), ih hk.2, List.cons_append]

theorem mapGet_append_right (k : String) :
    ∀ m₁ m₂ : List (String × β), k ∉ m₁.map Prod.fst →
      mapGet k (m₁ ++ m₂) = mapGet k m₂ := by
  intro m₁
  induction m₁ with
  | nil => intro m₂ _; rfl
  | cons e t ih =>
      obtain ⟨k', v'⟩ := e
      intro m₂ hk
      simp only [List.map_cons, List.mem_cons, not_or] at hk
      simp only [List.cons_append, mapGet, List.append_eq]
      rw [if_neg (fun hh => hk.1 hh.symm), ih m₂ hk.2]

theorem mapGet_append_left (k : String) :
    ∀ m₁ m₂ : List (String × β), k ∈ m₁.map Prod.fst →
      mapGet k (m₁ ++ m₂) = mapGet k m₁ := by
  intro m₁
  induction m₁ with
  | nil => intro m₂ h; simp at h
  | cons e t ih =>
      obtain ⟨k', v'⟩ := e
      intro m₂ h
      by_cases hk : k' = k
      · simp [mapGet, hk]
      · simp only [List.map_cons, List.mem_cons] at h
        rcases h with h | h
        · exact absurd h.symm hk
        · simp only [List.cons_append, mapGet, if_neg hk]
          exact ih m₂ h

theorem mapGet_mapSet_self (k : String) (v : β) :
    ∀ m : List (String × β), mapGet k (mapSet k v m) = some v := by
  intro m
  induction m with
  | nil => simp [mapSet, mapGet]
  | cons e t ih =>
      obtain ⟨k', v'⟩ := e
      by_cases h : k' = k
      · simp [mapSet, mapGet, h]
      · simp only [mapSet, if_neg h, mapGet]
        exact ih

theorem mapGet_mapSet_ne (k k₀ : String) (v : β) (hne : k ≠ k₀) :
    ∀ m : List (String × β), mapGet k (mapSet k₀ v m) = mapGet k m := by
  intro m
  induction m with
  | nil => simp [mapSet, mapGet, Ne.symm hne]
  | cons e t ih =>
      obtain ⟨k', v'⟩ := e
      by_cases h : k' = k₀
      · subst h
        simp only [mapSet, if_pos rfl, mapGet]
        rw [if_neg (Ne.symm hne), if_neg (Ne.symm hne)]
      · simp only [mapSet, if_neg h, mapGet]
        by_cases hk : k' = k
        · rw [if_pos hk, if_pos hk]
        · rw [if_neg hk, if_neg hk, ih]

theorem dedup_foldl_mem :
    ∀ (l acc : List String) (x : String),
      x ∈ l.foldl (fun acc y => if y ∈ acc then acc else acc ++ [y]) acc ↔
        x ∈ acc ∨ x ∈ l := by
  intro l
  induction l with
  | nil => intro acc x; simp
  | cons y t ih =>
      intro acc x
      simp only [List.foldl_cons]
      by_cases hy : y ∈ acc
      · rw [if_pos hy, ih]
        constructor
        · rintro (h | h)
          · exact Or.inl h
          · exact Or.inr (List.mem_cons_of_mem y h)
        · rintro (h | h)
          · exact Or.inl h
          · rcases List.mem_cons.1 h with h | h
            · exact Or.inl (h ▸ hy)
            · exact Or.inr h
      · rw [if_neg hy, ih]
        simp only [List.mem_append, List.mem_singleton, List.mem_cons]
        tauto

theorem mem_dedupKeepFirst (x : String) (l : List String) :
    x ∈ dedupKeepFirst l ↔ x ∈ l := by
  unfold dedupKeepFirst
  rw [dedup_foldl_mem]
  simp

theorem dedupKeepFirst_concat (l : List String) (x : String) :
    dedupKeepFirst (l ++ [x]) =
      if x ∈ dedupKeepFirst l then dedupKeepFirst l else dedupKeepFirst l ++ [x] := by
  unfold dedupKeepFirst
  rw [List.foldl_append]
  rfl

theorem dedup_foldl_nodup :
    ∀ (l acc : List String), acc.Nodup →
      (l.foldl (fun acc y => if y ∈ acc then acc else acc ++ [y]) acc).Nodup := by
  intro l
  induction l with
  | nil => intro acc h; exact h
  | cons y t ih =>
      intro acc h
      simp only [List.foldl_cons]
      by_cases hy : y ∈ acc
      · rw [if_pos hy]; exact ih acc h
      · rw [if_neg hy]
        refine ih _ ?_
        simp [List.nodup_append, h, hy]

theorem dedupKeepFirst_nodup (l : List String) : (dedupKeepFirst l).Nodup := by
  unfold dedupKeepFirst
  exact dedup_foldl_nodup l [] List.nodup_nil

theorem keysOfPairs_append (P R : List (String × CapabilityMatrixRow)) :
    keysOfPairs (P ++ R) = keysOfPairs P ++ keysOfPairs R := by
  unfold keysOfPairs
  rw [List.map_append, List.filter_append]

theorem keysOfPairs_singleton (p : String × CapabilityMatrixRow) :
    keysOfPairs [p] =
      if normalizeRequirement p.2.requirements = "" then []
      else [normalizeRequirement p.2.requirements] := by
  unfold keysOfPairs
  by_cases h : normalizeRequirement p.2.requirements = "" <;> simp [h]

theorem ne_empty_of_mem_keysOfPairs (P : List (String × CapabilityMatrixRow))
    (k : String) (h : k ∈ keysOfPairs P) : k ≠ "" := by
  unfold keysOfPairs at h
  have := List.of_mem_filter h
  simpa using this

theorem not_mem_keysOfPairs (P : List (String × CapabilityMatrixRow)) (k : String)
    (hk : k ≠ "") (h : k ∉ keysOfPairs P) :
    ∀ p ∈ P, normalizeRequirement p.2.requirements ≠ k := by
  intro p hp heq
  apply h
  unfold keysOfPairs
  exact List.mem_filter.2 ⟨List.mem_map.2 ⟨p, hp, heq⟩, by simp [hk]⟩

theorem find?_append_of_some (q : α → Bool) (a : α) :
    ∀ l₁ l₂ : List α, l₁.find? q = some a → (l₁ ++ l₂).find? q = some a := by
  intro l₁
  induction l₁ with
  | nil => intro l₂ h; cases h
  | cons b t ih =>
      intro l₂ h
      by_cases hb : q b = true
      · rw [List.find?_cons_of_pos _ hb] at h
        rw [List.cons_append, List.find?_cons_of_pos _ hb]
        exact h
      · rw [List.find?_cons_of_neg _ hb] at h
        rw [List.cons_append, List.find?_cons_of_neg _ hb]
        exact ih l₂ h

theorem find?_append_of_none (q : α → Bool) :
    ∀ l₁ l₂ : List α, l₁.find? q = none → (l₁ ++ l₂).find? q = l₂.find? q := by
  intro l₁
  induction l₁ with
  | nil => intro l₂ _; rfl
  | cons b t ih =>
      intro l₂ h
      by_cases hb : q b = true
      · rw [List.find?_cons_of_pos _ hb] at h
        cases h
      · rw [List.find?_cons_of_neg _ hb] at h
        rw [List.cons_append, List.find?_cons_of_neg _ hb]
        exact ih l₂ h

theorem firstReqTrimmed_append_of_some (Q R : List (String × CapabilityMatrixRow))
    (key x : String) (h : firstReqTrimmed Q key = some x) :
    firstReqTrimmed (Q ++ R) key = some x := by
  unfold firstReqTrimmed at h ⊢
  rcases Option.map_eq_some'.1 h with ⟨p₀, hp₀, hx⟩
  rw [find?_append_of_some _ p₀ Q R hp₀]
  simp [hx]

theorem firstReqTrimmed_eq_none (Q : List (String × CapabilityMatrixRow)) (key : String)
    (h : ∀ p ∈ Q, normalizeRequirement p.2.requirements ≠ key) :
    firstReqTrimmed Q key = none := by
  unfold firstReqTrimmed
  rw [List.find?_eq_none.2 (fun p hp => by simp [h p hp])]
  rfl

theorem firstReqTrimmed_append_hit (Q : List (String × CapabilityMatrixRow))
    (p : String × CapabilityMatrixRow)
    (h : ∀ q ∈ Q, normalizeRequirement q.2.requirements ≠
      normalizeRequirement p.2.requirements) :
    firstReqTrimmed (Q ++ [p]) (normalizeRequirement p.2.requirements) =
      some (jsTrim p.2.requirements) := by
  unfold firstReqTrimmed
  rw [find?_append_of_none _ Q [p]
    (List.find?_eq_none.2 (fun q hq => by simp [h q hq]))]
  rw [List.find?_cons_of_pos _ (by simp)]
  rfl

theorem lastCellForKey_append_skip (Q : List (String × CapabilityMatrixRow))
    (p : String × CapabilityMatrixRow) (mid key : String)
    (h : (p.1 == mid && (normalizeRequirement p.2.requirements == key)) = false) :
    lastCellForKey (Q ++ [p]) mid key = lastCellForKey Q mid key := by
  unfold lastCellForKey
  rw [List.filter_append]
  simp [List.filter_cons, h]

theorem lastCellForKey_append_hit (Q : List (String × CapabilityMatrixRow))
    (p : String × CapabilityMatrixRow) (mid key : String)
    (h : (p.1 == mid && (normalizeRequirement p.2.requirements == key)) = true) :
    lastCellForKey (Q ++ [p]) mid key = some (cellDataOf p.2) := by
  unfold lastCellForKey
  rw [List.filter_append]
  simp only [List.filter_cons, List.filter_nil, h, if_true]
  rw [List.getLast?_concat]
  rfl

theorem lastCellForKey_eq_none (Q : List (String × CapabilityMatrixRow))
    (mid key : String)
    (h : ∀ p ∈ Q, normalizeRequirement p.2.requirements ≠ key) :
    lastCellForKey Q mid key = none := by
  unfold lastCellForKey
  rw [List.filter_eq_nil_iff.2 (fun p hp => by simp [h p hp])]
  rfl

theorem updateCells_map_fst (nr mid : String) (cd : ComparisonCellData)
    (m : List (String × ComparisonRow)) :
    (updateCells nr mid cd m).map Prod.fst = m.map Prod.fst := by
  unfold updateCells
  rw [List.map_map]
  refine List.map_congr_left ?_
  intro e _
  by_cases h : e.1 = nr <;> simp [h]

theorem updateCells_of_not_mem (nr mid : String) (cd : ComparisonCellData)
    (m : List (String × ComparisonRow)) (h : nr ∉ m.map Prod.fst) :
    updateCells nr mid cd m = m := by
  unfold updateCells
  have he : ∀ e ∈ m,
      (if e.1 = nr then (e.1, { e.2 with cells := mapSet mid cd e.2.cells }) else e) = e := by
    intro e he
    have hne : e.1 ≠ nr := fun hh => h (hh ▸ List.mem_map_of_mem Prod.fst he)
    rw [if_neg hne]
  have h2 := List.map_congr_left he
  simpa using h2

theorem updateCells_append_self (nr mid : String) (cd : ComparisonCellData)
    (m : List (String × ComparisonRow)) (row : ComparisonRow)
    (h : nr ∉ m.map Prod.fst) :
    updateCells nr mid cd (m ++ [(nr, row)]) =
      m ++ [(nr, { row with cells := mapSet mid cd row.cells })] := by
  have h1 : updateCells nr mid cd m = m := updateCells_of_not_mem nr mid cd m h
  unfold updateCells at h1 ⊢
  rw [List.map_append, h1]
  simp

theorem mem_updateCells (nr mid : String) (cd : ComparisonCellData)
    (m : List (String × ComparisonRow)) (e' : String × ComparisonRow)
    (h : e' ∈ updateCells nr mid cd m) :
    (e' ∈ m ∧ e'.1 ≠ nr) ∨
      (∃ e ∈ m, e.1 = nr ∧
        e' = (nr, { e.2 with cells := mapSet mid cd e.2.cells })) := by
  unfold updateCells at h
  rcases List.mem_map.1 h with ⟨e, he, heq⟩
  by_cases hc : e.1 = nr
  · right
    refine ⟨e, he, hc, ?_⟩
    rw [← heq, if_pos hc, hc]
  · left
    rw [← heq, if_neg hc]
    exact ⟨he, hc⟩

theorem buildInv_step (Q : List (String × CapabilityMatrixRow))
    (p : String × CapabilityMatrixRow) (st : BuildState) (h : buildInv Q st) :
    buildInv (Q ++ [p]) (stepPair st p) := by
  obtain ⟨hA, hB, hC, hD, hE, hF, hG⟩ := h
  have hkeyne : ∀ e ∈ st.reqMap, e.1 ≠ "" := by
    intro e he
    apply ne_empty_of_mem_keysOfPairs Q
    rw [← mem_dedupKeepFirst, ← hA]
    exact List.mem_map_of_mem Prod.fst he
  show buildInv (Q ++ [p]) (rowStep p.1 p.2 st)
  by_cases hnr : normalizeRequirement p.2.requirements = ""
  · have hstep : rowStep p.1 p.2 st = st := by
      simp only [rowStep]
      rw [if_pos hnr]
    rw [hstep]
    have hkeys : keysOfPairs (Q ++ [p]) = keysOfPairs Q := by
      rw [keysOfPairs_append, keysOfPairs_singleton, if_pos hnr, List.append_nil]
    refine ⟨by rw [hkeys]; exact hA, hB, ?_, ?_, hE, hF, hG⟩
    · intro e he
      exact firstReqTrimmed_append_of_some Q [p] e.1 e.2.requirement (hC e he)
    · intro e he mid
      rw [lastCellForKey_append_skip Q p mid e.1
        (by simp [hnr, Ne.symm (hkeyne e he)])]
      exact hD e he mid
  · have hkeys : keysOfPairs (Q ++ [p]) =
        keysOfPairs Q ++ [normalizeRequirement p.2.requirements] := by
      rw [keysOfPairs_append, keysOfPairs_singleton, if_neg hnr]
    cases hget : mapGet (normalizeRequirement p.2.requirements) st.reqMap with
    | some cr =>
        have hmem : normalizeRequirement p.2.requirements ∈ st.reqMap.map Prod.fst := by
          by_contra hc
          rw [(mapGet_eq_none_iff _ _).2 hc] at hget
          cases hget
        have hstep : rowStep p.1 p.2 st =
            { st with reqMap :=
                (updateCells (normalizeRequirement p.2.requirements) p.1
                  (cellDataOf p.2) st.reqMap) } := by
          simp only [rowStep]
          rw [if_neg hnr, hget]
          simp
        rw [hstep]
        refine ⟨?_, ?_, ?_, ?_, ?_, ?_, ?_⟩
        · show (updateCells _ _ _ st.reqMap).map Prod.fst = _
          rw [updateCells_map_fst, hA, hkeys, dedupKeepFirst_concat, if_pos]
          rw [← hA]
          exact hmem
        · intro e' he'
          rcases mem_updateCells _ _ _ _ _ he' with ⟨he, _⟩ | ⟨e, he, hkey, rfl⟩
          · exact hB e' he
          · exact (hB e he).trans hkey
        · intro e' he'
          rcases mem_updateCells _ _ _ _ _ he' with ⟨he, _⟩ | ⟨e, he, hkey, rfl⟩
          · exact firstReqTrimmed_append_of_some Q [p] e'.1 e'.2.requirement (hC e' he)
          · exact firstReqTrimmed_append_of_some Q [p]
              (normalizeRequirement p.2.requirements) e.2.requirement (hkey ▸ hC e he)
        · intro e' he' mid
          rcases mem_updateCells _ _ _ _ _ he' with ⟨he, hne⟩ | ⟨e, he, hkey, rfl⟩
          · rw [lastCellForKey_append_skip Q p mid e'.1
              (by simp; exact fun _ hh => hne hh.symm)]
            exact hD e' he mid
          · show mapGet mid (mapSet p.1 (cellDataOf p.2) e.2.cells) =
              lastCellForKey (Q ++ [p]) mid (normalizeRequirement p.2.requirements)
            by_cases hmid : mid = p.1
            · subst hmid
              rw [mapGet_mapSet_self,
                lastCellForKey_append_hit Q p p.1
                  (normalizeRequirement p.2.requirements) (by simp)]
            · rw [mapGet_mapSet_ne mid p.1 (cellDataOf p.2) hmid,
                lastCellForKey_append_skip Q p mid
                  (normalizeRequirement p.2.requirements) (by simp [Ne.symm hmid])]
              exact hkey ▸ hD e he mid
        · show st.orderMap.map Prod.fst = (updateCells _ _ _ st.reqMap).map Prod.fst
          rw [updateCells_map_fst]
          exact hE
        · intro k hk
          rw [updateCells_map_fst] at hk
          exact hF k hk
        · show ((updateCells _ _ _ st.reqMap).map Prod.fst).Pairwise _
          rw [updateCells_map_fst]
          exact hG
    | none =>
        have hnotmem : normalizeRequirement p.2.requirements ∉ st.reqMap.map Prod.fst :=
          (mapGet_eq_none_iff _ _).1 hget
        have hnotmemO : normalizeRequirement p.2.requirements ∉ st.orderMap.map Prod.fst := by
          rw [hE]
          exact hnotmem
        have hnrQ : normalizeRequirement p.2.requirements ∉ keysOfPairs Q := by
          intro hc
          apply hnotmem
          rw [hA, mem_dedupKeepFirst]
          exact hc
        have hnomatch := not_mem_keysOfPairs Q _ hnr hnrQ
        have hstep : rowStep p.1 p.2 st =
            { reqMap := (st.reqMap ++
                [(normalizeRequirement p.2.requirements,
                  ⟨jsTrim p.2.requirements, normalizeRequirement p.2.requirements,
                    [(p.1, cellDataOf p.2)]⟩)])
              orderMap := (st.orderMap ++
                [(normalizeRequirement p.2.requirements, st.order)])
              order := st.order + 1 } := by
          simp only [rowStep]
          rw [if_neg hnr, hget]
          simp only [Option.isNone_none, if_true]
          rw [mapSet_eq_append (normalizeRequirement p.2.requirements)
              (⟨jsTrim p.2.requirements, normalizeRequirement p.2.requirements, []⟩ :
                ComparisonRow) st.reqMap hnotmem,
            mapSet_eq_append (normalizeRequirement p.2.requirements) st.order
              st.orderMap hnotmemO,
            updateCells_append_self (normalizeRequirement p.2.requirements) p.1
              (cellDataOf p.2) st.reqMap _ hnotmem]
          rfl
        rw [hstep]
        refine ⟨?_, ?_, ?_, ?_, ?_, ?_, ?_⟩
        · show (st.reqMap ++ _).map Prod.fst = _
          rw [List.map_append, hA, hkeys, dedupKeepFirst_concat, if_neg]
          · rfl
          · rw [← hA]
            exact hnotmem
        · intro e' he'
          rcases List.mem_append.1 he' with he | he
          · exact hB e' he
          · rcases List.mem_singleton.1 he with rfl
            rfl
        · intro e' he'
          rcases List.mem_append.1 he' with he | he
          · exact firstReqTrimmed_append_of_some Q [p] e'.1 e'.2.requirement (hC e' he)
          · rcases List.mem_singleton.1 he with rfl
            exact firstReqTrimmed_append_hit Q p hnomatch
        · intro e' he' mid
          rcases List.mem_append.1 he' with he | he
          · rw [lastCellForKey_append_skip Q p mid e'.1
              (by
                simp
                intro _ hh
                rw [hh] at hnotmem
                exact hnotmem (List.mem_map_of_mem Prod.fst he))]
            exact hD e' he mid
          · rcases List.mem_singleton.1 he with rfl
            show mapGet mid [(p.1, cellDataOf p.2)] =
              lastCellForKey (Q ++ [p]) mid (normalizeRequirement p.2.requirements)
            by_cases hmid : mid = p.1
            · subst hmid
              rw [lastCellForKey_append_hit Q p p.1
                (normalizeRequirement p.2.requirements) (by simp)]
              simp [mapGet]
            · rw [lastCellForKey_append_skip Q p mid
                (normalizeRequirement p.2.requirements)
                  (by simp; exact fun hh => hmid hh.symm),
                lastCellForKey_eq_none Q mid (normalizeRequirement p.2.requirements)
                  hnomatch]
              have hne2 : ¬p.1 = mid := fun hh => hmid hh.symm
              simp [mapGet, hne2]
        · show (st.orderMap ++ _).map Prod.fst = (st.reqMap ++ _).map Prod.fst
          rw [List.map_append, List.map_append, hE]
          rfl
        · intro k hk
          rw [List.map_append] at hk
          rcases List.mem_append.1 hk with hk | hk
          · have hkne : k ≠ normalizeRequirement p.2.requirements :=
              fun hh => hnotmem (hh ▸ hk)
            rw [mapGet_append_left k st.orderMap _ (by rw [hE]; exact hk)]
            show (mapGet k st.orderMap).getD 0 < st.order + 1
            have := hF k hk
            omega
          · rcases List.mem_singleton.1 hk with rfl
            rw [mapGet_append_right _ st.orderMap _ hnotmemO]
            simp [mapGet]
        · show ((st.reqMap ++ _).map Prod.fst).Pairwise _
          rw [List.map_append]
          rw [List.pairwise_append]
          refine ⟨?_, ?_, ?_⟩
          · refine List.Pairwise.imp_of_mem ?_ hG
            intro a b ha hb hab
            rw [mapGet_append_left a st.orderMap _ (by rw [hE]; exact ha),
              mapGet_append_left b st.orderMap _ (by rw [hE]; exact hb)]
            exact hab
          · simp
          · intro a ha b hb
            rcases List.mem_singleton.1 (by simpa using hb) with rfl
            rw [mapGet_append_left a st.orderMap _ (by rw [hE]; exact ha),
              mapGet_append_right _ st.orderMap _ hnotmemO]
            have := hF a ha
            simpa [mapGet] using this

theorem buildInv_foldl :
    ∀ (P Q : List (String × CapabilityMatrixRow)) (st : BuildState),
      buildInv Q st → buildInv (Q ++ P) (P.foldl stepPair st) := by
  intro P
  induction P with
  | nil => intro Q st h; simpa using h
  | cons p P ih =>
      intro Q st h
      have h2 := ih (Q ++ [p]) (stepPair st p) (buildInv_step Q p st h)
      rw [List.append_assoc] at h2
      simpa using h2

theorem buildInv_start : buildInv [] ⟨[], [], 0⟩ :=
  ⟨rfl, by simp, by simp, by simp, rfl, by simp, List.Pairwise.nil⟩

theorem buildState_eq_foldl (ms : List MatrixWithRows) :
    buildState ms = (scanRows ms).foldl stepPair ⟨[], [], 0⟩ := by
  unfold buildState scanRows
  generalize (⟨[], [], 0⟩ : BuildState) = st
  induction ms generalizing st with
  | nil => rfl
  | cons m ms ih =>
      simp only [List.foldl_cons, List.flatMap_cons, List.foldl_append, List.foldl_map]
      exact ih _

theorem buildInv_buildState (ms : List MatrixWithRows) :
    buildInv (scanRows ms) (buildState ms) := by
  rw [buildState_eq_foldl]
  have h := buildInv_foldl (scanRows ms) [] ⟨[], [], 0⟩ buildInv_start
  simpa using h

theorem buildRows_eq (ms : List MatrixWithRows) :
    (buildComparisonData ms).rows = (buildState ms).reqMap.map Prod.snd := by
  obtain ⟨hA, hB, hC, hD, hE, hF, hG⟩ := buildInv_buildState ms
  show sortBy (orderLe (buildState ms).orderMap)
    ((buildState ms).reqMap.map Prod.snd) = _
  apply sortBy_of_pairwise
  rw [List.pairwise_map]
  have hpair := List.pairwise_map.1 hG
  refine List.Pairwise.imp_of_mem ?_ hpair
  intro e₁ e₂ h₁ h₂ hlt
  unfold orderLe
  rw [hB e₁ h₁, hB e₂ h₂]
  simp only [decide_eq_true_eq]
  exact le_of_lt hlt

/-! ## The claims -/

/-- **C1** (amended): restoring the rows returned by
`deleteRowsByRequirement` re-inserts exactly the deleted rows with identical
id, owning matrix, requirement number, text, score, past performance,
comments and display order, so each matrix's observable row list (contents
and per-matrix order) equals the one before the delete — provided each
matrix's rows carry pairwise-distinct display orders — and the set of
matrices whose `updated_at` the restore bumps equals the set the delete
bumped.  (With tied display orders only the relative order of the tied rows
can change, because restored rows re-enter at the end of the table.) -/
theorem claim_C1_delete_restore_undo (st : Store) (now₁ now₂ text : String)
    (hdist : distinctRowOrders st) :
    (∀ mid, rowsOf (restoreRows now₂ (deleteRowsByRequirement now₁ text st).2.deletedRows
        (deleteRowsByRequirement now₁ text st).1) mid = rowsOf st mid) ∧
    restoreAffectedIds (deleteRowsByRequirement now₁ text st).2.deletedRows =
      (deleteRowsByRequirement now₁ text st).2.affectedMatrixIds :=
  ⟨fun mid => delete_restore_rows_eq st now₁ now₂ text mid (distinctRowOrders_all st hdist mid),
   delete_restore_bumped_eq st now₁ text⟩

/-- **C1** witness: the round trip at a concrete two-row store. -/
theorem claim_C1_undo_witness :
    distinctRowOrders storeTwoRows ∧
    rowsOf (restoreRows "t2" (deleteRowsByRequirement "t1" "foo" storeTwoRows).2.deletedRows
      (deleteRowsByRequirement "t1" "foo" storeTwoRows).1) "m" = rowsOf storeTwoRows "m" :=
  ⟨by decide, (claim_C1_delete_restore_undo storeTwoRows "t1" "t2" "foo" (by decide)).1 "m"⟩

/-- **C1** counterexample to the claim as stated: with two rows sharing a
display order, delete + restore changes the observable order of the tied
rows, so the store is not observably identical for every store state. -/
theorem claim_C1_counterexample :
    rowsOf (restoreRows "t2" (deleteRowsByRequirement "t1" "foo" storeTiedOrders).2.deletedRows
      (deleteRowsByRequirement "t1" "foo" storeTiedOrders).1) "m" ≠ rowsOf storeTiedOrders "m" := by
  decide

/-- **C2** counterexample to the claim as stated: the Aggregator's
normalization maps a tab-padded row text and the bare target to the same
key, yet the SQL-side delete removes nothing, because SQLite's `TRIM`
strips only spaces — the two normalizations are not the same function on
every string. -/
theorem claim_C2_counterexample :
    normalizeRequirement "\tfoo" = normalizeRequirement "foo" ∧
    (deleteRowsByRequirement "t1" "foo" storeTabRow).2.deletedCount = 0 := by
  decide

/-- **C2** (amended): restricted to rows and targets whose text is ASCII
with no whitespace other than spaces, the SQL normalization agrees with the
Aggregator's `normalizeRequirement`, so `deleteRowsByRequirement` removes
exactly the rows the Aggregator groups under the target's key (they differ
in general, e.g. on tab-padded text). -/
theorem claim_C2_delete_matches_aggregator (st : Store) (now text : String)
    (hrows : ∀ r ∈ st.rows, asciiSpaceOnly r.requirements) :
    (deleteRowsByRequirement now text st).1.rows =
      st.rows.filter
        (fun r => !(normalizeRequirement r.requirements == normalizeRequirement text)) ∧
    (deleteRowsByRequirement now text st).2.deletedRows =
      (st.rows.filter
        (fun r => normalizeRequirement r.requirements == normalizeRequirement text)).map
        mapMatrixRowRow := by
  classical
  have hpred : ∀ r ∈ st.rows,
      (sqlNormalize r.requirements == normalizeRequirement text) =
        (normalizeRequirement r.requirements == normalizeRequirement text) := by
    intro r hr
    rw [normalizeRequirement_eq_sqlNormalize _ (hrows r hr)]
  have hfilter :
      st.rows.filter (fun r => sqlNormalize r.requirements == normalizeRequirement text) =
        st.rows.filter
          (fun r => normalizeRequirement r.requirements == normalizeRequirement text) :=
    List.filter_congr hpred
  have hfilterneg :
      st.rows.filter (fun r => !(sqlNormalize r.requirements == normalizeRequirement text)) =
        st.rows.filter
          (fun r => !(normalizeRequirement r.requirements == normalizeRequirement text)) :=
    List.filter_congr (fun r hr => by rw [hpred r hr])
  by_cases hempty :
      (st.rows.filter (fun r => sqlNormalize r.requirements == normalizeRequirement text)).isEmpty
  · have hnil := List.isEmpty_iff.1 hempty
    have hnone : ∀ r ∈ st.rows,
        ¬(sqlNormalize r.requirements == normalizeRequirement text) = true := by
      intro r hr hp
      have : r ∈ st.rows.filter
          (fun r => sqlNormalize r.requirements == normalizeRequirement text) :=
        List.mem_filter.2 ⟨hr, hp⟩
      rw [hnil] at this
      simp at this
    constructor
    · simp only [deleteRowsByRequirement, if_pos hempty]
      rw [← hfilterneg]
      symm
      apply List.filter_eq_self.2
      intro r hr
      simp [hnone r hr]
    · simp only [deleteRowsByRequirement, if_pos hempty]
      rw [← hfilter, hnil]
      rfl
  · constructor
    · simp only [deleteRowsByRequirement, if_neg hempty]
      exact hfilterneg
    · simp only [deleteRowsByRequirement, if_neg hempty]
      exact congrArg (List.map mapMatrixRowRow) hfilter

/-- **C2** witness: the amended agreement at a concrete space-padded
store. -/
theorem claim_C2_agreement_witness :
    (∀ r ∈ storeSpacePadded.rows, asciiSpaceOnly r.requirements) ∧
    (deleteRowsByRequirement "t1" "foo" storeSpacePadded).1.rows =
      storeSpacePadded.rows.filter
        (fun r => !(normalizeRequirement r.requirements == normalizeRequirement "foo")) :=
  ⟨by decide,
   (claim_C2_delete_matches_aggregator storeSpacePadded "t1" "foo" (by decide)).1⟩

/-- **C4**: `validateScore` rounds numeric values and integer-parses string
values, accepting only results in `[0,3]`, and returns "unrated" (`none`)
in every other case, never raising; in particular `3`, `"3"`, `3.4`, `2.6`
all yield `3`, and `-1`, `4`, `"abc"`, `""`, `null` all yield unrated. -/
theorem claim_C4_validateScore :
    (∀ q : ℚ, validateScore (.vNum q) =
      if 0 ≤ ⌊q + 1/2⌋ ∧ ⌊q + 1/2⌋ ≤ 3 then some ⌊q + 1/2⌋ else none) ∧
    (∀ s : String, validateScore (.vStr s) =
      match jsParseInt (jsTrim s) with
      | some n => if 0 ≤ n ∧ n ≤ 3 then some n else none
      | none => none) ∧
    validateScore .vNull = none ∧ validateScore .vUndef = none ∧
    (∀ d : String, validateScore (.vOther d) = none) ∧
    validateScore (.vNum 3) = some 3 ∧ validateScore (.vStr "3") = some 3 ∧
    validateScore (.vNum (mkRat 17 5)) = some 3 ∧
    validateScore (.vNum (mkRat 13 5)) = some 3 ∧
    validateScore (.vNum (-1)) = none ∧ validateScore (.vNum 4) = none ∧
    validateScore (.vStr "abc") = none ∧ validateScore (.vStr "") = none := by
  refine ⟨?_, ?_, by decide, by decide, ?_, by decide, by decide, by decide, by decide,
    by decide, by decide, by decide, by decide⟩
  · intro q
    rw [← jsRound_eq_floor]
    simp [validateScore]
  · intro s
    by_cases hs : s = ""
    · subst hs
      decide
    · have h1 : validateScore (.vStr s) =
          (if jsTrim s = "" then none
           else
             match jsParseInt (jsTrim s) with
             | some n => if 0 ≤ n ∧ n ≤ 3 then some n else none
             | none => none) := by
        unfold validateScore
        rw [if_neg (by simp [hs])]
      rw [h1]
      by_cases ht : jsTrim s = ""
      · rw [if_pos ht, ht]
        rfl
      · rw [if_neg ht]
  · intro d
    simp [validateScore]

theorem foldl_sheetStep (filename : String) (b : Bool) :
    ∀ (sheets : List (String × SheetData)) (acc : List ParsedMatrix × List String),
      sheets.foldl (sheetStep filename b) acc =
        (acc.1 ++ sheets.filterMap (fun s =>
            match s.2 with
            | .grid g => parseWorksheet g filename (if b then some s.1 else none)
            | .malformed _ => none),
         acc.2 ++ sheets.filterMap (fun s =>
            match s.2 with
            | .malformed msg => some (sheetErrorString filename s.1 msg)
            | .grid _ => none)) := by
  intro sheets
  induction sheets with
  | nil => intro acc; simp
  | cons s t ih =>
      intro acc
      rw [List.foldl_cons, ih]
      cases s with
      | mk name sd =>
          cases sd with
          | malformed msg => simp [sheetStep, List.filterMap_cons]
          | grid g =>
              cases hp : parseWorksheet g filename (if b then some name else none) with
              | none => simp [sheetStep, List.filterMap_cons, hp]
              | some pm => simp [sheetStep, List.filterMap_cons, hp]

/-- **C5**: `parseExcelFile` never returns both an empty matrices list and
an empty errors list (that case synthesizes a "No valid data found" error),
and for a readable workbook each malformed sheet contributes exactly one
error string, in sheet order, while the remaining sheets are still parsed
into matrices. -/
theorem claim_C5_parse_isolation (input : WorkbookInput) (filename : String) :
    ((parseExcelFile input filename).matrices ≠ [] ∨
      (parseExcelFile input filename).errors ≠ []) ∧
    (∀ sheets, input = WorkbookInput.book sheets →
      (parseExcelFile input filename).matrices = parsedSheets filename sheets ∧
      (parseExcelFile input filename).errors =
        sheetErrs filename sheets ++
          (if parsedSheets filename sheets = [] ∧ sheetErrs filename sheets = []
           then ["No valid data found in " ++ filename] else [])) := by
  have hbook : ∀ sheets,
      parseExcelFile (WorkbookInput.book sheets) filename =
        ⟨parsedSheets filename sheets,
         sheetErrs filename sheets ++
           (if parsedSheets filename sheets = [] ∧ sheetErrs filename sheets = []
            then ["No valid data found in " ++ filename] else [])⟩ := by
    intro sheets
    show (let acc := sheets.foldl (sheetStep filename (sheets.length > 1)) ([], [])
          if acc.1.isEmpty && acc.2.isEmpty then
            (⟨acc.1, acc.2 ++ ["No valid data found in " ++ filename]⟩ : ParseResult)
          else ⟨acc.1, acc.2⟩) = _
    rw [foldl_sheetStep filename (sheets.length > 1) sheets ([], [])]
    simp only [List.nil_append]
    have hP : sheets.filterMap (fun s =>
        match s.2 with
        | .grid g => parseWorksheet g filename
            (if (sheets.length > 1 : Bool) then some s.1 else none)
        | .malformed _ => none) = parsedSheets filename sheets := by
      unfold parsedSheets
      apply List.filterMap_congr
      intro s _
      cases s.2 with
      | grid g =>
          show parseWorksheet g filename (if (sheets.length > 1 : Bool) then some s.1 else none) =
            parseWorksheet g filename (if sheets.length > 1 then some s.1 else none)
          congr 1
          by_cases h : sheets.length > 1

          · rw [if_pos h, if_pos (by simpa using h)]
          · rw [if_neg h, if_neg (by simpa using h)]
      | malformed msg => rfl
    rw [hP]
    by_cases hPE : parsedSheets filename sheets = [] ∧ sheetErrs filename sheets = []
    · rw [if_pos (by
        simp only [List.isEmpty_iff, Bool.and_eq_true]
        exact ⟨by simp [hPE.1], by simpa [sheetErrs] using hPE.2⟩)]
      rw [if_pos hPE]
      simp only [hPE.1]
      rfl
    · rw [if_neg (by
        simp only [List.isEmpty_iff, Bool.and_eq_true, not_and]
        intro h1 h2
        exact hPE ⟨h1, by simpa [sheetErrs] using h2⟩)]
      rw [if_neg hPE]
      simp [sheetErrs]
  constructor
  · cases input with
    | unreadable msg =>
        right
        show ["Failed to parse " ++ filename ++ ": " ++ msg] ≠ []
        simp
    | book sheets =>
        rw [hbook sheets]
        by_cases hPE : parsedSheets filename sheets = [] ∧ sheetErrs filename sheets = []
        · right
          simp [hPE]
        · rw [not_and_or] at hPE
          rcases hPE with h | h
          · left
            simpa using h
          · right
            simp [h]
  · intro sheets hinput
    subst hinput
    rw [hbook sheets]
    exact ⟨rfl, rfl⟩

/-- **C5** witness: a workbook whose first sheet throws and whose second
parses; the error list holds exactly the one sheet error and the good
sheet's matrix is still produced. -/
theorem claim_C5_witness :
    parseExcelFile (WorkbookInput.book sampleSheets) "f.xlsx" =
      ParseResult.mk (parsedSheets "f.xlsx" sampleSheets)
        (sheetErrs "f.xlsx" sampleSheets ++
          (if parsedSheets "f.xlsx" sampleSheets = [] ∧ sheetErrs "f.xlsx" sampleSheets = []
           then ["No valid data found in f.xlsx"] else [])) := by
  have h := (claim_C5_parse_isolation (WorkbookInput.book sampleSheets) "f.xlsx").2
    sampleSheets rfl
  cases hres : parseExcelFile (WorkbookInput.book sampleSheets) "f.xlsx" with
  | mk ms es =>
      rw [hres] at h
      exact congrArg₂ ParseResult.mk h.1 h.2

theorem extract_map_requirements (g : Grid) (hi : HeaderInfo) :
    ∀ (rows : List Nat) (autoN : Nat),
      (extractRowsLoop g hi rows autoN).map (fun r => r.requirements) =
        (rows.filter
            (fun row => !(getCellString (cellAt g row hi.requirementsCol) == ""))).map
          (fun row => getCellString (cellAt g row hi.requirementsCol)) := by
  intro rows
  induction rows with
  | nil => intro autoN; rfl
  | cons row rest ih =>
      intro autoN
      by_cases hreq : getCellString (cellAt g row hi.requirementsCol) = ""
      · rw [extractRowsLoop, if_pos hreq, List.filter_cons_of_neg (by simp [hreq])]
        exact ih autoN
      · rw [extractRowsLoop, if_neg hreq, List.filter_cons_of_pos (by simp [hreq])]
        by_cases hcell : (if hi.hasReqNumberColumn && hi.reqNumberCol ≥ 0 then
            getCellString (cellAt g row hi.reqNumberCol.toNat) else "") = ""
        · simp only [hcell, eq_self_iff_true, if_true, List.map_cons]
          rw [ih (autoN + 1)]
        · simp only [if_neg hcell, List.map_cons]
          rw [ih autoN]

theorem extract_map_numbers (g : Grid) (hi : HeaderInfo)
    (hno : hi.hasReqNumberColumn = false) :
    ∀ (rows : List Nat) (autoN : Nat),
      (extractRowsLoop g hi rows autoN).map (fun r => r.requirementNumber) =
        (List.range (rows.filter
            (fun row => !(getCellString (cellAt g row hi.requirementsCol) == ""))).length).map
          (fun i => natToString (autoN + i)) := by
  intro rows
  induction rows with
  | nil => intro autoN; rfl
  | cons row rest ih =>
      intro autoN
      by_cases hreq : getCellString (cellAt g row hi.requirementsCol) = ""
      · rw [extractRowsLoop, if_pos hreq, List.filter_cons_of_neg (by simp [hreq])]
        exact ih autoN
      · rw [extractRowsLoop, if_neg hreq, List.filter_cons_of_pos (by simp [hreq])]
        have hcell : (if hi.hasReqNumberColumn && hi.reqNumberCol ≥ 0 then
            getCellString (cellAt g row hi.reqNumberCol.toNat) else "") = "" := by
          rw [if_neg (by simp [hno])]
        simp only [hcell, eq_self_iff_true, if_true, List.map_cons, List.length_cons,
          List.range_succ_eq_map, List.map_map]
        congr 1
        rw [ih (autoN + 1)]
        apply List.map_congr_left
        intro i _
        show natToString (autoN + 1 + i) = natToString (autoN + (i + 1))
        congr 1
        omega

/-- **C6**: row extraction keeps exactly the post-header rows with a
non-empty requirements cell (rows missing score, past performance or
comments are still kept — only the requirements text is tested), and when
no requirement-number column was detected the kept rows get the sequential
auto-generated numbers "1", "2", "3", … in sheet order; `parseWorksheet`'s
rows are exactly this extraction. -/
theorem claim_C6_row_extraction (g : Grid) (filename : String) (sheetName : Option String) :
    ((extractRowsLoop g (findHeaderInfo g) (dataRowIndices g (findHeaderInfo g)) 1).map
        (fun r => r.requirements) =
      (keptRowIndices g (findHeaderInfo g)).map
        (fun row => getCellString (cellAt g row (findHeaderInfo g).requirementsCol))) ∧
    ((findHeaderInfo g).hasReqNumberColumn = false →
      (extractRowsLoop g (findHeaderInfo g) (dataRowIndices g (findHeaderInfo g)) 1).map
          (fun r => r.requirementNumber) =
        (List.range (keptRowIndices g (findHeaderInfo g)).length).map
          (fun i => natToString (i + 1))) ∧
    (∀ pm, parseWorksheet g filename sheetName = some pm →
      pm.rows = extractRowsLoop g (findHeaderInfo g) (dataRowIndices g (findHeaderInfo g)) 1) := by
  refine ⟨extract_map_requirements g (findHeaderInfo g) _ 1, ?_, ?_⟩
  · intro hno
    rw [extract_map_numbers g (findHeaderInfo g) hno _ 1]
    apply List.map_congr_left
    intro i _
    show natToString (1 + i) = natToString (i + 1)
    congr 1
    omega
  · intro pm hpm
    unfold parseWorksheet at hpm
    by_cases hempty : (extractRowsLoop g (findHeaderInfo g)
        (dataRowIndices g (findHeaderInfo g)) 1).isEmpty
    · rw [if_pos hempty] at hpm
      exact absurd hpm (by simp)
    · rw [if_neg hempty] at hpm
      have := Option.some.inj hpm
      rw [← this]

/-- **C6** witness: auto-numbering at a concrete sheet with no detected
requirement-number column. -/
theorem claim_C6_witness :
    (findHeaderInfo sampleGrid).hasReqNumberColumn = false ∧
    (extractRowsLoop sampleGrid (findHeaderInfo sampleGrid)
        (dataRowIndices sampleGrid (findHeaderInfo sampleGrid)) 1).map
        (fun r => r.requirementNumber) =
      (List.range (keptRowIndices sampleGrid (findHeaderInfo sampleGrid)).length).map
        (fun i => natToString (i + 1)) :=
  ⟨by decide, (claim_C6_row_extraction sampleGrid "f.xlsx" none).2.1 (by decide)⟩

/-- **C8** counterexample to the claim as stated: the empty string has
depth 0, yet `outdentNumber ""` returns `"1"`, not its input unchanged. -/
theorem claim_C8_counterexample : getDepth "" = 0 ∧ outdentNumber "" ≠ "" := by
  decide

/-- **C8** (amended): for every *non-empty* requirement number of depth 0
(no `'.'`), `outdentNumber` is a no-op returning its input; the empty
string returns `"1"`; and for every valid number with at least one `'.'`
it removes the last segment and increments the new last segment
(`"1.2.1" → "1.3"`, `"1.1" → "2"`). -/
theorem claim_C8_outdent (s : String) :
    (s ≠ "" → getDepth s = 0 → outdentNumber s = s) ∧
    outdentNumber "" = "1" ∧
    (∀ (init : List (Option Int)) (a b : Int), isValidRequirementNumber s = true →
      parseSegments s = init ++ [some a, some b] →
      parseSegments (outdentNumber s) = init ++ [some (a + 1)]) ∧
    outdentNumber "1.2.1" = "1.3" ∧ outdentNumber "1.1" = "2" := by
  refine ⟨?_, by decide, ?_, by decide, by decide⟩
  · intro hne hdepth
    have hfilter : s.data.filter (fun c => c == '.') = [] := by
      unfold getDepth at hdepth
      exact List.length_eq_zero.1 hdepth
    have hnodot : ∀ c ∈ s.data, (c == '.') = false := by
      intro c hc
      cases h' : (c == '.') with
      | false => rfl
      | true =>
          have hmem : c ∈ s.data.filter (fun c => c == '.') := List.mem_filter.2 ⟨hc, h'⟩
          rw [hfilter] at hmem
          simp at hmem
    have hsplit : jsSplitDot s = [s] := by
      unfold jsSplitDot
      rw [splitOnChar_no_sep '.' s.data hnodot]
      rfl
    unfold outdentNumber
    rw [if_neg hne]
    simp [hsplit]
  · intro init a b hval hseg
    have hne : s ≠ "" := by
      intro h
      rw [h] at hseg
      simp [parseSegments] at hseg
    unfold parseSegments at hseg
    rw [if_neg (by simp [hne, hval])] at hseg
    obtain ⟨l₁, l₂, hps, hmap₁, hmap₂⟩ := List.map_eq_append_iff.1 hseg
    cases l₂ with
    | nil => simp at hmap₂
    | cons x l₂' =>
        cases l₂' with
        | nil => simp at hmap₂
        | cons y l₂'' =>
            cases l₂'' with
            | cons z t => simp at hmap₂
            | nil =>
                simp only [List.map_cons, List.map_nil, List.cons.injEq, and_true] at hmap₂
                obtain ⟨hx, hy⟩ := hmap₂
                have hxprop := valid_segments s hval hne x (by rw [hps]; simp)
                have hl₁prop : ∀ seg ∈ l₁, seg.data ≠ [] ∧
                    ∀ c ∈ seg.data, isDigitChar c = true := by
                  intro seg hseg'
                  exact valid_segments s hval hne seg (by rw [hps]; simp [hseg'])
                have hxval : (digitsToNat x.data : Int) = a := by
                  have hj := jsNumber_digits x hxprop.1 hxprop.2
                  rw [hj] at hx
                  exact Option.some.inj hx
                have ha0 : 0 ≤ a := by
                  rw [← hxval]
                  exact Int.natCast_nonneg _
                have hxy : l₁ ++ [x, y] = (l₁ ++ [x]) ++ [y] := by
                  rw [List.append_assoc]
                  rfl
                have hgl : (l₁ ++ [x]).getLastD "" = x := by
                  rw [List.getLastD_eq_getLast?, List.getLast?_concat]
                  rfl
                have hparse : jsParseInt ((l₁ ++ [x]).getLastD "") = some a := by
                  rw [hgl, jsParseInt_of_valid_seg x hxprop.1 hxprop.2, hxval]
                have hout : outdentNumber s = jsJoinDot (l₁ ++ [jsIntToString (a + 1)]) := by
                  unfold outdentNumber
                  rw [if_neg hne]
                  simp only [hps]
                  rw [if_neg (by simp)]
                  rw [hxy, List.dropLast_concat]
                  rw [hparse]
                  rw [List.dropLast_concat]
                have hnewrepr : jsIntToString (a + 1) = natToString (a + 1).natAbs := by
                  rw [jsIntToString, if_neg (by omega)]
                obtain ⟨hnne, hndig, -⟩ := natToString_spec (a + 1).natAbs
                have hnewne : (jsIntToString (a + 1)).data ≠ [] := by
                  rw [hnewrepr]; exact hnne
                have hnewdig : ∀ c ∈ (jsIntToString (a + 1)).data, isDigitChar c = true := by
                  rw [hnewrepr]; exact hndig
                have hdotfree : ∀ p ∈ (l₁ ++ [jsIntToString (a + 1)]).map (fun s => s.data),
                    ∀ c ∈ p, (c == '.') = false := by
                  intro p hp c hc
                  rcases List.mem_map.1 hp with ⟨seg, hseg', rfl⟩
                  rcases List.mem_append.1 hseg' with hseg' | hseg'
                  · exact isDigitChar_ne_dot c ((hl₁prop seg hseg').2 c hc)
                  · rcases List.mem_singleton.1 hseg' with rfl
                    exact isDigitChar_ne_dot c (hnewdig c hc)
                have hsplitout :
                    jsSplitDot (jsJoinDot (l₁ ++ [jsIntToString (a + 1)])) =
                      l₁ ++ [jsIntToString (a + 1)] := by
                  unfold jsSplitDot jsJoinDot
                  rw [show (String.mk (joinSepChars '.'
                      ((l₁ ++ [jsIntToString (a + 1)]).map (fun s => s.data)))).data =
                    joinSepChars '.' ((l₁ ++ [jsIntToString (a + 1)]).map (fun s => s.data))
                    from rfl]
                  rw [splitOnChar_joinSep '.' _ (by simp) hdotfree]
                  exact map_mk_data _
                have houtne : jsJoinDot (l₁ ++ [jsIntToString (a + 1)]) ≠ "" := by
                  unfold jsJoinDot
                  intro hcontra
                  have hdata : joinSepChars '.'
                      ((l₁ ++ [jsIntToString (a + 1)]).map (fun s => s.data)) = [] := by
                    have := congrArg String.data hcontra
                    exact this
                  cases hl : l₁ with
                  | nil =>
                      rw [hl] at hdata
                      simp only [List.nil_append, List.map_cons, List.map_nil,
                        joinSepChars] at hdata
                      exact hnewne hdata
                  | cons p rest =>
                      rw [hl] at hdata
                      cases rest with
                      | nil =>
                          simp only [List.cons_append, List.nil_append, List.map_cons,
                            List.map_nil, joinSepChars] at hdata
                          simp at hdata
                      | cons q rest' =>
                          simp only [List.cons_append, List.map_cons, joinSepChars] at hdata
                          simp at hdata
                have hvalout :
                    isValidRequirementNumber (jsJoinDot (l₁ ++ [jsIntToString (a + 1)])) = true := by
                  unfold isValidRequirementNumber
                  rw [if_neg houtne, hsplitout]
                  rw [List.all_append]
                  have h1 : l₁.all (fun seg => !(seg == "") && seg.data.all isDigitChar) = true := by
                    rw [List.all_eq_true]
                    intro seg hseg'
                    obtain ⟨hne', hdig'⟩ := hl₁prop seg hseg'
                    simp only [Bool.and_eq_true, Bool.not_eq_eq_eq_not, Bool.not_true,
                      beq_eq_false_iff_ne, ne_eq, List.all_eq_true]
                    exact ⟨fun hc => hne' (congrArg String.data hc), hdig'⟩
                  have h2 : ([jsIntToString (a + 1)]).all
                      (fun seg => !(seg == "") && seg.data.all isDigitChar) = true := by
                    simp only [List.all_cons, List.all_nil, Bool.and_true, Bool.and_eq_true,
                      Bool.not_eq_eq_eq_not, Bool.not_true, beq_eq_false_iff_ne, ne_eq,
                      List.all_eq_true]
                    exact ⟨fun hc => hnewne (congrArg String.data hc), hnewdig⟩
                  rw [h1, h2]
                  rfl
                rw [hout]
                unfold parseSegments
                rw [if_neg (by simp [houtne, hvalout]), hsplitout, List.map_append, hmap₁]
                congr 1
                rw [show (List.map jsNumber [jsIntToString (a + 1)]) =
                  [jsNumber (jsIntToString (a + 1))] from rfl]
                rw [hnewrepr, jsNumber_natToString]
                rw [Int.natAbs_of_nonneg (show (0 : Int) ≤ a + 1 by omega)]

/-- **C8** witness: the no-op at depth 0 and the increment one level down,
exercised at concrete numbers. -/
theorem claim_C8_outdent_witness :
    outdentNumber "7" = "7" ∧ parseSegments (outdentNumber "1.2.1") = [some 1, some 3] :=
  ⟨(claim_C8_outdent "7").1 (by decide) (by decide),
   (claim_C8_outdent "1.2.1").2.2.1 [some 1] 2 1 (by decide) (by decide)⟩

/-- **C7** counterexample to the claim as stated: `"1"` and `"1.0"` are
distinct valid requirement numbers that compare equal (missing trailing
segments read as 0), so `compare` is not antisymmetric on valid strings and
hence not a total order. -/
theorem claim_C7_counterexample :
    isValidRequirementNumber "1" = true ∧ isValidRequirementNumber "1.0" = true ∧
    compareRequirementNumbers "1" "1.0" = some 0 ∧ "1" ≠ "1.0" := by
  decide

/-- **C7** (amended): on valid requirement numbers `compare` is a total
preorder consistent with segment-wise numeric comparison with missing
trailing segments read as 0 (so `"1" < "1.1"`): it is reflexive,
sign-antisymmetric (hence total), transitive on the "not after" relation,
equals `padCmp` of the numeric segments on non-empty inputs, sorts `""`
after every non-empty valid string, and `compare("", "") = 0`.  It is
antisymmetric only up to trailing-zero padding (`"1"` vs `"1.0"` compare
equal), so it is not a total *order* on the strings themselves. -/
theorem claim_C7_compare_preorder (a b c : String)
    (ha : isValidRequirementNumber a = true) (hb : isValidRequirementNumber b = true)
    (hc : isValidRequirementNumber c = true) :
    compareRequirementNumbers a a = some 0 ∧
    (∃ v, compareRequirementNumbers a b = some v ∧
      compareRequirementNumbers b a = some (-v)) ∧
    (∀ u v, compareRequirementNumbers a b = some u → u ≤ 0 →
      compareRequirementNumbers b c = some v → v ≤ 0 →
      ∃ w, compareRequirementNumbers a c = some w ∧ w ≤ 0) ∧
    (a ≠ "" → b ≠ "" →
      compareRequirementNumbers a b = some (padCmp (specSegs a) (specSegs b))) ∧
    (a ≠ "" → compareRequirementNumbers "" a = some 1) ∧
    compareRequirementNumbers "" "" = some 0 ∧
    compareRequirementNumbers "1" "1.1" = some (-1) := by
  refine ⟨?_, ?_, ?_, fun hna hnb => compare_eq_padCmp a b ha hb hna hnb,
    fun hna => compare_empty_left a hna, by decide, by decide⟩
  · by_cases hna : a = ""
    · subst hna
      decide
    · rw [compare_eq_padCmp a a ha ha hna hna, padCmp_self]
  · by_cases hna : a = ""
    · by_cases hnb : b = ""
      · subst hna hnb
        exact ⟨0, by decide, by decide⟩
      · refine ⟨1, ?_, ?_⟩
        · rw [hna]
          exact compare_empty_left b hnb
        · rw [hna]
          exact compare_empty_right b hnb
    · by_cases hnb : b = ""
      · refine ⟨-1, ?_, ?_⟩
        · rw [hnb]
          exact compare_empty_right a hna
        · rw [hnb, neg_neg]
          exact compare_empty_left a hna
      · refine ⟨padCmp (specSegs a) (specSegs b),
          compare_eq_padCmp a b ha hb hna hnb, ?_⟩
        rw [compare_eq_padCmp b a hb ha hnb hna, padCmp_neg (specSegs b) (specSegs a)]
  · intro u v h1 hu h2 hv
    by_cases hna : a = ""
    · subst hna
      by_cases hnb : b = ""
      · subst hnb
        exact ⟨v, h2, hv⟩
      · rw [compare_empty_left b hnb] at h1
        have : u = 1 := by
          have := Option.some.inj h1
          omega
        omega
    · by_cases hnc : c = ""
      · subst hnc
        exact ⟨-1, compare_empty_right a hna, by omega⟩
      · by_cases hnb : b = ""
        · subst hnb
          rw [compare_empty_left c hnc] at h2
          have : v = 1 := by
            have := Option.some.inj h2
            omega
          omega
        · rw [compare_eq_padCmp a b ha hb hna hnb] at h1
          rw [compare_eq_padCmp b c hb hc hnb hnc] at h2
          refine ⟨padCmp (specSegs a) (specSegs c),
            compare_eq_padCmp a c ha hc hna hnc, ?_⟩
          have hu' : padCmp (specSegs a) (specSegs b) ≤ 0 := by
            have := Option.some.inj h1
            omega
          have hv' : padCmp (specSegs b) (specSegs c) ≤ 0 := by
            have := Option.some.inj h2
            omega
          exact padCmp_trans
            ((specSegs a).length + (specSegs b).length + (specSegs c).length)
            (specSegs a) (specSegs b) (specSegs c) le_rfl hu' hv'

/-- **C7** witness: reflexivity and the `"1" < "1.1"` comparison at
concrete valid numbers. -/
theorem claim_C7_compare_witness :
    compareRequirementNumbers "1.2" "1.2" = some 0 ∧
    compareRequirementNumbers "1" "1.1" = some (-1) :=
  ⟨(claim_C7_compare_preorder "1.2" "1.10" "2" (by decide) (by decide) (by decide)).1,
   (claim_C7_compare_preorder "1.2" "1.10" "2" (by decide) (by decide)
     (by decide)).2.2.2.2.2.2⟩

/-- **C9**: `exportMatrixToExcel` emits exactly one data row per matrix row
starting at spreadsheet row 10, in the order of `compareRequirementNumbers`
(not the stored display order), with nothing written at or past row
`10 + count`; and when the matrix has at least one row, a
conditional-formatting block with `equal` rules for `3`, `2`, `1`, `0`
covers `C10:C(9 + count)` (none is attached for an empty matrix). -/
theorem claim_C9_export_layout (m : MatrixWithRows) (meta : ExportMetadata)
    (hvalid : ∀ r ∈ m.rows, isValidRequirementNumber r.requirementNumber = true) :
    (sortBy exportRowLe m.rows).Perm m.rows ∧
    (sortBy exportRowLe m.rows).Pairwise (fun r₁ r₂ => ∃ v,
      compareRequirementNumbers r₁.requirementNumber r₂.requirementNumber = some v ∧
        v ≤ 0) ∧
    (∀ i (h : i < (sortBy exportRowLe m.rows).length),
      wsGet (exportMatrixToExcel m meta) (10 + i) 1 =
        some (.xs ((sortBy exportRowLe m.rows).get ⟨i, h⟩).requirementNumber) ∧
      wsGet (exportMatrixToExcel m meta) (10 + i) 2 =
        some (.xs ((sortBy exportRowLe m.rows).get ⟨i, h⟩).requirements) ∧
      wsGet (exportMatrixToExcel m meta) (10 + i) 3 =
        some (match ((sortBy exportRowLe m.rows).get ⟨i, h⟩).experienceAndCapability with
              | some n => XCell.xn n
              | none => XCell.xs "") ∧
      wsGet (exportMatrixToExcel m meta) (10 + i) 4 =
        some (.xs ((sortBy exportRowLe m.rows).get ⟨i, h⟩).pastPerformance) ∧
      wsGet (exportMatrixToExcel m meta) (10 + i) 5 =
        some (.xs ((sortBy exportRowLe m.rows).get ⟨i, h⟩).comments)) ∧
    (∀ r c, 10 + (sortBy exportRowLe m.rows).length ≤ r →
      wsGet (exportMatrixToExcel m meta) r c = none) ∧
    (m.rows ≠ [] →
      (exportMatrixToExcel m meta).condFmts =
        [⟨"C10:C" ++ toString (9 + m.rows.length), ["3", "2", "1", "0"]⟩]) ∧
    (m.rows = [] → (exportMatrixToExcel m meta).condFmts = []) := by
  refine ⟨sortBy_perm exportRowLe m.rows, ?_, ?_, ?_, ?_, ?_⟩
  · have hpair := sortBy_pairwise exportRowLe
      (fun r => isValidRequirementNumber r.requirementNumber = true)
      (fun x y hx hy => exportRowLe_total x y hx hy)
      (fun x y z hx hy hz => exportRowLe_trans x y z hx hy hz)
      m.rows hvalid
    refine List.Pairwise.imp_of_mem ?_ hpair
    intro r₁ r₂ h₁ h₂ hle
    have hv₁ := hvalid r₁ ((sortBy_perm exportRowLe m.rows).subset h₁)
    have hv₂ := hvalid r₂ ((sortBy_perm exportRowLe m.rows).subset h₂)
    obtain ⟨v, hcmp, -⟩ := compare_antisym_of_valid _ _ hv₁ hv₂
    refine ⟨v, hcmp, ?_⟩
    unfold exportRowLe at hle
    rw [hcmp] at hle
    simpa using hle
  · intro i h
    refine ⟨?_, ?_, ?_, ?_, ?_⟩ <;>
      · rw [wsGet_export_data m meta i _ h]
        simp [dataRowWrites]
  · intro r c hr
    exact wsGet_export_past_data m meta r c hr
  · intro hne
    show exportCondFmts (sortBy exportRowLe m.rows) = _
    have hlen : (sortBy exportRowLe m.rows).length = m.rows.length :=
      (sortBy_perm exportRowLe m.rows).length_eq
    unfold exportCondFmts
    rw [if_pos (by
      rw [hlen]
      cases hm : m.rows with
      | nil => exact absurd hm hne
      | cons a t => simp)]
    rw [hlen]
    rw [show 10 + m.rows.length - 1 = 9 + m.rows.length from by omega]
  · intro hnil
    show exportCondFmts (sortBy exportRowLe m.rows) = _
    unfold exportCondFmts
    rw [if_neg (by
      rw [(sortBy_perm exportRowLe m.rows).length_eq, hnil]
      simp)]

/-- **C9** witness: the layout at a concrete three-row matrix whose stored
order differs from the requirement-number order. -/
theorem claim_C9_export_witness :
    (∀ r ∈ exportSampleMatrix.rows, isValidRequirementNumber r.requirementNumber = true) ∧
    wsGet (exportMatrixToExcel exportSampleMatrix sampleMeta) 10 2 =
      some (.xs ((sortBy exportRowLe exportSampleMatrix.rows).get
        ⟨0, by decide⟩).requirements) ∧
    (exportMatrixToExcel exportSampleMatrix sampleMeta).condFmts =
      [⟨"C10:C" ++ toString (9 + exportSampleMatrix.rows.length), ["3", "2", "1", "0"]⟩] :=
  ⟨by decide,
   ((claim_C9_export_layout exportSampleMatrix sampleMeta (by decide)).2.2.1 0
     (by decide)).2.1,
   (claim_C9_export_layout exportSampleMatrix sampleMeta (by decide)).2.2.2.2.1
     (by decide)⟩

/-- **C10**: the `matrices` field of `buildComparisonData`'s result lists
every input matrix exactly once, as `(id, name)`, in caller order — also
matrices that contributed no comparison row. -/
theorem claim_C10_matrices_list (ms : List MatrixWithRows) :
    (buildComparisonData ms).matrices = ms.map (fun m => (m.id, m.name)) := rfl

/-- **C3**: `buildComparisonData` produces exactly one comparison row per
distinct non-empty normalized requirement key (the key list is duplicate-free
and equals the deduplicated non-empty keys of the flattened scan, so it is in
first-seen scan order — matrices in caller order, rows in stored order — and
rows whose text normalizes to empty contribute no comparison row); each row's
display text is the trimmed text of the first occurrence of its key; and for
every matrix id the row's cell is the data of the last scanned row of that
matrix with that key (`none` when that matrix has no such row, so later rows
with a seen key merge into the existing comparison row). -/
theorem claim_C3_aggregation (ms : List MatrixWithRows) :
    ((buildComparisonData ms).rows.map (fun r => r.normalizedRequirement)).Nodup ∧
    (buildComparisonData ms).rows.map (fun r => r.normalizedRequirement) =
      dedupKeepFirst (keysOfPairs (scanRows ms)) ∧
    (∀ cr ∈ (buildComparisonData ms).rows,
      firstReqTrimmed (scanRows ms) cr.normalizedRequirement = some cr.requirement) ∧
    (∀ cr ∈ (buildComparisonData ms).rows, ∀ mid : String,
      mapGet mid cr.cells = lastCellForKey (scanRows ms) mid cr.normalizedRequirement) := by
  obtain ⟨hA, hB, hC, hD, hE, hF, hG⟩ := buildInv_buildState ms
  have hrows := buildRows_eq ms
  have hmapkeys : (buildComparisonData ms).rows.map (fun r => r.normalizedRequirement) =
      (buildState ms).reqMap.map Prod.fst := by
    rw [hrows, List.map_map]
    exact List.map_congr_left (fun e he => hB e he)
  refine ⟨?_, ?_, ?_, ?_⟩
  · rw [hmapkeys, hA]
    exact dedupKeepFirst_nodup _
  · rw [hmapkeys, hA]
  · intro cr hcr
    rw [hrows] at hcr
    rcases List.mem_map.1 hcr with ⟨e, he, rfl⟩
    rw [hB e he]
    exact hC e he
  · intro cr hcr mid
    rw [hrows] at hcr
    rcases List.mem_map.1 hcr with ⟨e, he, rfl⟩
    rw [hB e he]
    exact hD e he mid

end CMM
